import Mathlib

/-!
Verification development for the `browser_insight` protocol engine and capture
orchestrator (`services/browser_connector.py`, `services/pipeline.py`,
`services/index_manager.py`).  Shallow embedding: each Python function that the
claims refer to is translated into an executable Lean definition over explicit
state; real time, sockets and the event loop are replaced by explicit traces of
outcomes chosen by the environment.
-/

namespace BrowserInsight

/-! ## Wire frames and session state (`BrowserConnector.__init__`, `_ws_reader_loop`) -/

/-- A decoded JSON frame on the debugging socket.  Only the fields the code
inspects are modelled: `id` (`msg.get("id")`), `method` (`"method" in msg`),
`params`, `error` (`"error" in resp`) and `result` (`resp.get("result")`),
each optional exactly as in the wire JSON. -/
structure Frame where
  idF : Option Nat := none
  methodF : Option String := none
  paramsF : Option String := none
  errorF : Option String := none
  resultF : Option String := none
  deriving Repr, DecidableEq

/-- State of one completion slot (`asyncio.Future`) in `_pending_commands`:
either still awaited (`waiting`) or already resolved with a frame
(`fut.set_result(msg)` has run). -/
inductive SlotState where
  | waiting : SlotState
  | resolved (f : Frame) : SlotState
  deriving Repr, DecidableEq

/-- Connection-session state from `BrowserConnector.__init__`: the outgoing
message id counter `_msg_id`, the pending-command table `_pending_commands`
(an insertion-ordered association list, like a Python dict), the unsolicited
event queue `_event_queue`, and the queue's `maxsize` (`0` = unbounded, which
is what `asyncio.Queue()` uses). -/
structure ConnState where
  msgId : Nat
  pending : List (Nat × SlotState)
  events : List Frame
  queueMax : Nat
  deriving Repr, DecidableEq

/-- `self._event_queue.put_nowait(msg)` guarded by `except asyncio.QueueFull:
pass`: append the frame unless the queue has a finite `maxsize` that is already
reached, in which case the frame is dropped silently. -/
def enqueueEvent (s : ConnState) (f : Frame) : ConnState :=
  if s.queueMax ≠ 0 ∧ s.queueMax ≤ s.events.length then s
  else { s with events := s.events ++ [f] }

/-- `fut = self._pending_commands[msg_id]; if not fut.done():
fut.set_result(msg)`: resolve the slot stored under key `i` in place (the
entry is *not* popped here), leaving already-resolved slots untouched. -/
def resolveSlot (ps : List (Nat × SlotState)) (i : Nat) (f : Frame) :
    List (Nat × SlotState) :=
  ps.map (fun p => if p.1 = i ∧ p.2 = SlotState.waiting then (p.1, SlotState.resolved f) else p)

/-- `self._pending_commands.pop(cmd_id, None)`. -/
def popPending (ps : List (Nat × SlotState)) (i : Nat) : List (Nat × SlotState) :=
  ps.filter (fun p => p.1 ≠ i)

/-- Python-dict assignment `self._pending_commands[cmd_id] = future`:
overwrite in place when the key exists, append otherwise. -/
def pendingAssign (ps : List (Nat × SlotState)) (k : Nat) (v : SlotState) :
    List (Nat × SlotState) :=
  if (ps.lookup k).isSome then
    ps.map (fun kv => if kv.1 = k then (k, v) else kv)
  else ps ++ [(k, v)]

/-- One iteration of `_ws_reader_loop` on a decoded frame:
`msg_id = msg.get("id"); if msg_id is not None and msg_id in
self._pending_commands:` resolve the slot; `elif "method" in msg:` push to the
event queue (drop when full); otherwise ignore the frame. -/
def readerStep (s : ConnState) (f : Frame) : ConnState :=
  match f.idF with
  | some i =>
      if (s.pending.lookup i).isSome then
        { s with pending := resolveSlot s.pending i f }
      else if f.methodF.isSome then enqueueEvent s f else s
  | none => if f.methodF.isSome then enqueueEvent s f else s

/-- The reader loop run over a finite list of received frames. -/
def readerRun (s : ConnState) (fs : List Frame) : ConnState :=
  fs.foldl readerStep s

/-! ## Command dispatch (`BrowserConnector._send_command`, `_check_ws_alive`) -/

/-- `self._msg_id += 1; cmd_id = self._msg_id`: allocate the next message id
(used both by `_send_command` and by the `_check_ws_alive` health check). -/
def allocId (s : ConnState) : Nat × ConnState :=
  (s.msgId + 1, { s with msgId := s.msgId + 1 })

/-- The outbound frame `{"id": cmd_id, "method": method}` plus optional
`params`. -/
structure OutFrame where
  id : Nat
  method : String
  params : Option String
  deriving Repr, DecidableEq

/-- `timeout=30.0` used by `asyncio.wait_for(future, timeout=30.0)` in
`_send_command`. -/
def sendCommandTimeoutSec : Nat := 30

/-- `timeout=5.0` used by the `_check_ws_alive` health check. -/
def checkAliveTimeoutSec : Nat := 5

/-- Registration phase of `_send_command` on an open socket: allocate the next
id, build the outbound frame, and register a fresh waiting completion slot
under that id (`self._pending_commands[cmd_id] = future`). -/
def sendRegister (s : ConnState) (method : String) (params : Option String) :
    OutFrame × ConnState :=
  let (cid, s1) := allocId s
  ({ id := cid, method := method, params := params },
   { s1 with pending := pendingAssign s1.pending cid SlotState.waiting })

/-- What the await of the completion slot produced: either the 30-second
timeout fired, or the reader resolved the slot with a frame. -/
inductive AwaitOutcome where
  | timeout : AwaitOutcome
  | completed (f : Frame) : AwaitOutcome
  deriving Repr, DecidableEq

/-- Result of `_send_command` as seen by the caller. -/
inductive SendResult where
  | timeoutErr (method : String) : SendResult
  | protocolErr (payload : String) : SendResult
  | ok (result : Option String) : SendResult
  deriving Repr, DecidableEq

/-- Completion phase of `_send_command`: on `asyncio.TimeoutError` the slot is
popped and a timeout error is raised (`RuntimeError("CDP 命令超时: ...")`); on a
delivered response the slot is popped in the `finally` block, then
`if "error" in resp:` raises a protocol error carrying the wire error payload,
else `resp.get("result", {})` is returned. -/
def sendFinish (s : ConnState) (cid : Nat) (method : String)
    (out : AwaitOutcome) : SendResult × ConnState :=
  match out with
  | AwaitOutcome.timeout =>
      (SendResult.timeoutErr method, { s with pending := popPending s.pending cid })
  | AwaitOutcome.completed f =>
      let s' := { s with pending := popPending s.pending cid }
      match f.errorF with
      | some e => (SendResult.protocolErr e, s')
      | none => (SendResult.ok f.resultF, s')

/-! ## Session operations and the id counter (`_msg_id`) -/

/-- The operations that touch session state while a connector exists:
id allocation (`_send_command` / `_check_ws_alive`), a reader-loop iteration,
draining the event queue (`_drain_events`), popping one pending entry
(timeout / `finally`), and clearing the pending table
(`_ws_connect` / `disconnect`).  None of them resets or decrements `_msg_id`. -/
inductive SessionOp where
  | alloc : SessionOp
  | reader (f : Frame) : SessionOp
  | drain : SessionOp
  | pop (i : Nat) : SessionOp
  | clearPending : SessionOp
  deriving Repr, DecidableEq

/-- Small-step semantics of a session operation; an allocation additionally
reports the id it handed out. -/
def sessionStep (s : ConnState) : SessionOp → ConnState × Option Nat
  | SessionOp.alloc =>
      let (cid, s') := allocId s
      ({ s' with pending := pendingAssign s'.pending cid SlotState.waiting }, some cid)
  | SessionOp.reader f => (readerStep s f, none)
  | SessionOp.drain => ({ s with events := [] }, none)
  | SessionOp.pop i => ({ s with pending := popPending s.pending i }, none)
  | SessionOp.clearPending => ({ s with pending := [] }, none)

/-- Run a list of session operations, collecting every allocated id in order. -/
def runOps (s : ConnState) : List SessionOp → ConnState × List Nat
  | [] => (s, [])
  | op :: ops =>
      let (s', alloc?) := sessionStep s op
      let (s'', ids) := runOps s' ops
      (s'', (match alloc? with | some i => [i] | none => []) ++ ids)

/-! ## URL parsing model (`urllib.parse.urlparse` as used by the connector) -/

/-- A character allowed inside a URL scheme (`RFC 3986`: alphanumeric, `+`,
`-`, `.`); used to model how `urlparse` recognises a leading `scheme:`. -/
def isSchemeChar (c : Char) : Bool :=
  c.isAlphanum || c = '+' || c = '-' || c = '.'

/-- Model of `urlparse`'s scheme splitting: when the string starts with an
alphabetic character followed by scheme characters and a `:`, the parse
continues after the colon; otherwise the string is unchanged. -/
def dropScheme (cs : List Char) : List Char :=
  let pre := cs.takeWhile isSchemeChar
  let post := cs.drop pre.length
  match pre, post with
  | c :: _, ':' :: rest => if c.isAlpha then rest else cs
  | _, _ => cs

/-- Model of `urlparse`'s netloc splitting: a netloc is present exactly when
(after the scheme) the string starts with `//`, and extends to the next `/`,
`?` or `#`.  Returns `(netloc, remainder)`. -/
def splitNetloc (cs : List Char) : List Char × List Char :=
  match cs with
  | '/' :: '/' :: rest =>
      let nl := rest.takeWhile (fun c => c ≠ '/' ∧ c ≠ '?' ∧ c ≠ '#')
      (nl, rest.drop nl.length)
  | _ => ([], cs)

/-- The path component stops at the query or fragment delimiter. -/
def pathChars (cs : List Char) : List Char :=
  cs.takeWhile (fun c => c ≠ '?' ∧ c ≠ '#')

/-- `urlparse(url).netloc`, modelled for the URL shapes the connector
handles (absolute `scheme://host/path` URLs, protocol-relative `//host/path`,
bare paths, and the empty string). -/
def urlparseNetloc (u : String) : String :=
  String.mk (splitNetloc (dropScheme u.data)).1

/-- `urlparse(url).path`, same model as `urlparseNetloc`. -/
def urlparsePath (u : String) : String :=
  String.mk (pathChars (splitNetloc (dropScheme u.data)).2)

/-- Python `s.rstrip("/")`: remove every trailing `/`. -/
def rstripSlash (s : String) : String :=
  String.mk ((s.data.reverse.dropWhile (fun c => c = '/')).reverse)

/-- Python `s.lstrip("/")`: remove every leading `/`. -/
def lstripSlash (s : String) : String :=
  String.mk (s.data.dropWhile (fun c => c = '/'))

/-- Python `s.startswith(pre)`. -/
def pyStartsWith (s pre : String) : Bool :=
  pre.data.isPrefixOf s.data

/-- ASCII lowering of one character, as `str.lower()` does on the host names
the connector compares. -/
def pyLowerChar (c : Char) : Char :=
  if 'A' ≤ c ∧ c ≤ 'Z' then Char.ofNat (c.toNat + 32) else c

/-- Python `s.lower()` on ASCII strings. -/
def pyLower (s : String) : String :=
  String.mk (s.data.map pyLowerChar)

/-! ## Tab selection (`_url_matches_target`, `_match_tab`) -/

/-- `BrowserConnector._url_matches_target(page_url, target_url)`: hosts must be
equal after lowercasing; then the (trailing-slash-stripped) target path must be
empty, be `"/"`, or be a prefix of the page path. -/
def urlMatchesTarget (pageUrl targetUrl : String) : Bool :=
  if pyLower (urlparseNetloc targetUrl) ≠ pyLower (urlparseNetloc pageUrl) then
    false
  else
    rstripSlash (urlparsePath targetUrl) = ""
    || rstripSlash (urlparsePath targetUrl) = "/"
    || pyStartsWith (rstripSlash (urlparsePath pageUrl))
         (rstripSlash (urlparsePath targetUrl))

/-- The spec's wording of the match predicate (§4.2 of the design document):
host equality case-insensitively, and the target has no path or a root path,
or the tab's path starts with the target's path after trailing-slash
normalization.  Declared separately so that the equivalence with the source
predicate `urlMatchesTarget` is a theorem, not a definition. -/
def urlMatchesSpec (pageUrl targetUrl : String) : Bool :=
  (pyLower (urlparseNetloc pageUrl) = pyLower (urlparseNetloc targetUrl) : Bool)
    && (urlparsePath targetUrl = "" || urlparsePath targetUrl = "/"
        || pyStartsWith (rstripSlash (urlparsePath pageUrl))
             (rstripSlash (urlparsePath targetUrl)))

/-- One discovered tab descriptor, with the fields `_match_tab` and `connect`
inspect: `type`, `url` and the optional `webSocketDebuggerUrl`. -/
structure Tab where
  type : String
  url : String
  wsUrl : Option String
  deriving Repr, DecidableEq

/-- `BrowserConnector._match_tab(tabs, target_url)`: gives up when the target
has no host, otherwise returns the first page-type tab exposing a debug URL
whose URL matches the target. -/
def matchTab (tabs : List Tab) (targetUrl : String) : Option Tab :=
  if pyLower (urlparseNetloc targetUrl) = "" then none
  else tabs.find? (fun t =>
    t.type = "page" && t.wsUrl.isSome && urlMatchesTarget t.url targetUrl)

/-! ## Reconnection supervisor (`BrowserConnector.connect`, lines 331-383) -/

/-- An entry of `available_tabs` (already filtered to page-type tabs exposing a
`webSocketDebuggerUrl`). -/
structure ConnTab where
  wsUrl : String
  url : String
  deriving Repr, DecidableEq

/-- The fallback-tab choice of `connect`'s retry handler: first a tab whose
debug URL differs from the current one and has not failed yet; only when no
such tab exists, the first tab (in discovery order) whose debug URL differs
from the current one — i.e. retrying previously failed tabs. -/
def nextTabChoice (tabs : List ConnTab) (cur : String) (failed : List String) :
    Option ConnTab :=
  match tabs.find? (fun t => t.wsUrl ≠ cur && !(failed.contains t.wsUrl)) with
  | some t => some t
  | none => tabs.find? (fun t => t.wsUrl ≠ cur)

/-- Outcome of the `for attempt in range(self._max_reconnect)` loop. -/
inductive ConnOutcome where
  | success (url : String) (attempted : List String) (sleeps : Nat)
  | failure (retries : Nat) (attempted : List String) (sleeps : Nat)
  | fellThrough (attempted : List String) (sleeps : Nat)
  deriving Repr, DecidableEq

/-- The attempted debug URLs recorded in an outcome, in order. -/
def ConnOutcome.attemptedOf : ConnOutcome → List String
  | ConnOutcome.success _ a _ => a
  | ConnOutcome.failure _ a _ => a
  | ConnOutcome.fellThrough a _ => a

/-- How many times the loop slept `reconnect_interval` seconds. -/
def ConnOutcome.sleepsOf : ConnOutcome → Nat
  | ConnOutcome.success _ _ n => n
  | ConnOutcome.failure _ _ n => n
  | ConnOutcome.fellThrough _ n => n

/-- The attempt count reported by the final `ConnectionRefusedError`, when the
loop failed. -/
def ConnOutcome.retriesOf : ConnOutcome → Option Nat
  | ConnOutcome.failure n _ _ => some n
  | _ => none

/-- The retry loop of `connect`, lines 336-383: `ok i u` tells whether the
socket open of attempt `i` on debug URL `u` succeeds.  On failure before the
last attempt the current URL is added to `failed_debugger_urls`, a fallback tab
is chosen by `nextTabChoice`, and the loop sleeps `reconnect_interval`; the
last failing attempt raises `ConnectionRefusedError` reporting
`max_reconnect`.  Recursion is on the number of remaining attempts. -/
def connectGo (tabs : List ConnTab) (ok : Nat → String → Bool) (maxR : Nat) :
    Nat → String → List String → List String → Nat → ConnOutcome
  | 0, _, _, attempted, sleeps => ConnOutcome.fellThrough attempted sleeps
  | remaining + 1, cur, failed, attempted, sleeps =>
      if ok (maxR - (remaining + 1)) cur then
        ConnOutcome.success cur (attempted ++ [cur]) sleeps
      else if remaining = 0 then
        ConnOutcome.failure maxR (attempted ++ [cur]) sleeps
      else
        let failed' := if cur ∈ failed then failed else failed ++ [cur]
        let cur' := match nextTabChoice tabs cur failed' with
          | some t => t.wsUrl
          | none => cur
        connectGo tabs ok maxR remaining cur' failed' (attempted ++ [cur]) (sleeps + 1)

/-- The whole retry loop starting from the initially selected tab. -/
def connectAttempts (tabs : List ConnTab) (ok : Nat → String → Bool)
    (maxR : Nat) (initial : String) : ConnOutcome :=
  connectGo tabs ok maxR maxR initial [] [] 0

/-! ## Domain extraction and the capture session directory -/

/-- `BrowserConnector.extract_domain(url)`: `urlparse(url).netloc or
"unknown"`. -/
def extractDomain (url : String) : String :=
  let n := urlparseNetloc url
  if n = "" then "unknown" else n

/-- The session directory `base_storage / timestamp / domain` computed by
`Pipeline.capture_page`, as its list of path segments. -/
def captureSessionDir (baseStorage timestamp currentUrl : String) :
    List String :=
  [baseStorage, timestamp, extractDomain currentUrl]

/-! ## Network event aggregation (`collect_network_events`, lines 576-625) -/

/-- The fields of `params["request"]` read by the aggregator. -/
structure ReqInfo where
  url : String
  method : String
  headers : List (String × String)
  postData : String
  deriving Repr, DecidableEq

/-- The `params` of a `Network.requestWillBeSent` event that the aggregator
reads: `requestId`, `request`, `type` and `initiator.type`. -/
structure ReqParams where
  requestId : String
  request : ReqInfo
  type : String
  initiatorType : String
  deriving Repr, DecidableEq

/-- The response fields the aggregator copies out of a
`Network.responseReceived` event: `{status, statusText, headers, mimeType}`. -/
structure RespInfo where
  status : Nat
  statusText : String
  headers : List (String × String)
  mimeType : String
  deriving Repr, DecidableEq

/-- The `params` of a `Network.responseReceived` event. -/
structure RespParams where
  requestId : String
  response : RespInfo
  deriving Repr, DecidableEq

/-- A queued protocol event as classified by `event.get("method", "")`. -/
inductive NetEvent where
  | requestWillBeSent (p : ReqParams)
  | responseReceived (p : RespParams)
  | other (method : String)
  deriving Repr, DecidableEq

/-- An entry of `requests_map`: the dict literal built for
`Network.requestWillBeSent`, with `response` initially `None`. -/
structure NetEntry where
  requestId : String
  url : String
  method : String
  headers : List (String × String)
  postData : String
  type : String
  initiator : String
  response : Option RespInfo
  deriving Repr, DecidableEq

/-- The dict literal `requests_map[req_id] = {...}` for a request-sent event. -/
def mkEntry (p : ReqParams) : NetEntry :=
  { requestId := p.requestId
    url := p.request.url
    method := p.request.method
    headers := p.request.headers
    postData := p.request.postData
    type := p.type
    initiator := p.initiatorType
    response := none }

/-- Python-dict assignment `m[k] = v` on an insertion-ordered association
list: overwrite in place when the key exists (keeping its original position),
append otherwise. -/
def dictAssign (m : List (String × NetEntry)) (k : String) (v : NetEntry) :
    List (String × NetEntry) :=
  if (m.lookup k).isSome then
    m.map (fun kv => if kv.1 = k then (k, v) else kv)
  else m ++ [(k, v)]

/-- `requests_map[req_id]["response"] = {...}`: mutate the `response` field of
the entry stored under `k`, leaving position and the other fields intact. -/
def dictAttachResponse (m : List (String × NetEntry)) (k : String)
    (r : RespInfo) : List (String × NetEntry) :=
  m.map (fun kv => if kv.1 = k then (kv.1, { kv.2 with response := some r }) else kv)

/-- One event-classification step of the aggregation loop body
(lines 591-618): `Network.requestWillBeSent` creates or overwrites the map
entry for its `requestId`; `Network.responseReceived` attaches the response
fields when the `requestId` is already known (`if req_id in requests_map:`)
and is ignored otherwise; any other event is ignored. -/
def netStep (m : List (String × NetEntry)) : NetEvent → List (String × NetEntry)
  | NetEvent.requestWillBeSent p => dictAssign m p.requestId (mkEntry p)
  | NetEvent.responseReceived p =>
      if (m.lookup p.requestId).isSome then
        dictAttachResponse m p.requestId p.response
      else m
  | NetEvent.other _ => m

/-- The aggregation map after consuming a list of events. -/
def netRun (events : List NetEvent) : List (String × NetEntry) :=
  events.foldl netStep []

/-- The request ids of the request-sent events of a trace, in arrival order. -/
def reqIds (events : List NetEvent) : List String :=
  events.filterMap (fun e => match e with
    | NetEvent.requestWillBeSent p => some p.requestId
    | _ => none)

/-- First-occurrence deduplication relative to a list of already-seen keys;
describes the key order of an insertion-ordered dict. -/
def firstSightsAux (seen : List String) : List String → List String
  | [] => []
  | x :: xs =>
      if x ∈ seen then firstSightsAux seen xs
      else x :: firstSightsAux (x :: seen) xs

/-- Whether a trace contains a response-received event for a request id. -/
def hasResponseFor (events : List NetEvent) (rid : String) : Bool :=
  events.any (fun e => match e with
    | NetEvent.responseReceived p => p.requestId = rid
    | _ => false)

/-- The `0.5` second sub-timeout of the polling loop, in milliseconds (all
wall-clock quantities of this model are integer milliseconds). -/
def subTimeoutMs : ℤ := 500

/-- One scheduling step of the polling loop in `collect_network_events`:
either `asyncio.wait_for(self._event_queue.get(), ...)` yielded an event after
`dt` milliseconds, or it timed out after `min(remaining, 0.5 s)`, or the
iteration raised. -/
inductive PollStep where
  | gotEvent (e : NetEvent) (dt : ℤ)
  | timedOut
  | errored
  deriving Repr, DecidableEq

/-- Outcome of the polling loop: the final map together with the wall-clock
time at which the loop exits, an exception escaping the loop body, or a trace
too short to determine the outcome. -/
inductive LoopOutcome where
  | finished (entries : List (String × NetEntry)) (finalTime : ℤ)
  | raised
  | outOfSteps
  deriving Repr, DecidableEq

/-- The `while asyncio.get_event_loop().time() < end_time:` loop of
`collect_network_events`: exits (returning the map) as soon as the clock
reaches `end_time`; a received event is folded into the map with `netStep`; a
sub-timeout advances the clock by `min(remaining, 0.5)` and continues. -/
def collectLoop (endTime : ℤ) :
    List PollStep → ℤ → List (String × NetEntry) → LoopOutcome
  | steps, now, m =>
      if endTime ≤ now then LoopOutcome.finished m now
      else
        match steps with
        | [] => LoopOutcome.outOfSteps
        | PollStep.gotEvent e dt :: rest =>
            collectLoop endTime rest (now + dt) (netStep m e)
        | PollStep.timedOut :: rest =>
            collectLoop endTime rest (now + min (endTime - now) subTimeoutMs) m
        | PollStep.errored :: _ => LoopOutcome.raised

/-- `collect_network_events(duration_sec)` from the instant the polling loop
starts: `end_time = loop.time() + duration_sec`. -/
def collectNetworkEvents (startTime duration : ℤ) (steps : List PollStep) :
    LoopOutcome :=
  collectLoop (startTime + duration) steps startTime []

/-- The protocol commands issued by `collect_network_events`:
`Network.enable` up front, and `Network.disable` in the `finally` block on
both the normal and the exceptional exit of the loop (for an undetermined
trace the cleanup has not been observed yet). -/
def collectCmds (startTime duration : ℤ) (steps : List PollStep) :
    List String :=
  match collectNetworkEvents startTime duration steps with
  | LoopOutcome.outOfSteps => ["Network.enable"]
  | _ => ["Network.enable", "Network.disable"]

/-! ## Capture orchestrator (`Pipeline.capture_page`, lines 75-195) -/

/-- One entry of the `scripts` list: `script_info.get("src", "")`. -/
structure Script where
  src : String
  deriving Repr, DecidableEq

/-- The persisted file record built in `process_script` (the wall-clock
timestamp string is not modelled). -/
structure FileRecord where
  url : String
  hash : String
  domain : String
  localPath : String
  mapPath : String
  sourceMapRestored : Bool
  deriving Repr, DecidableEq

/-- A queued parse task `{path, mapPath, url}`. -/
structure ParseTask where
  path : String
  mapPath : String
  url : String
  deriving Repr, DecidableEq

/-- The mutable state shared by the download tasks of one capture run: the
persistent file index (pairs `(url, hash)`, `IndexManager`), the persisted
records, the files written to disk, the `tasks_to_parse` queue, and the
counters of `stats`. -/
structure CapState where
  index : List (String × String)
  records : List FileRecord
  written : List (String × List Nat)
  parseQueue : List ParseTask
  newFiles : Nat
  skipped : Nat
  sourceMaps : Nat
  deriving Repr, DecidableEq

/-- Fresh per-invocation capture state over a persistent index
(`stats` starts at zero each call; the index is the durable store). -/
def initCapState (index : List (String × String)) : CapState :=
  { index := index, records := [], written := [], parseQueue := []
    newFiles := 0, skipped := 0, sourceMaps := 0 }

/-- `IndexManager.hash_exists(url, file_hash)`: is the `(url, hash)` pair
recorded in the file index? -/
def hashExists (url h : String) (index : List (String × String)) : Prop :=
  (url, h) ∈ index

instance (url h : String) (index : List (String × String)) :
    Decidable (hashExists url h index) := by
  unfold hashExists; infer_instance

/-- The `_url_to_local_path` helper: the URL's path component with leading
slashes stripped (defaulting to `index.js` when empty), under the session
directory. -/
def urlToLocalPath (sessionDir srcUrl : String) : String :=
  let p := lstripSlash (urlparsePath srcUrl)
  let p := if p = "" then "index.js" else p
  sessionDir ++ "/" ++ p

/-- `PurePath.with_suffix(".js.map")` on the local path: the final extension
of the last path component (a dot not in first position) is replaced by
`.js.map`. -/
def withSuffixJsMap (p : String) : String :=
  let cs := p.data
  let nameLen := (cs.reverse.takeWhile (fun c => c ≠ '/')).length
  let dir := cs.take (cs.length - nameLen)
  let name := cs.drop (cs.length - nameLen)
  let extLen := (name.reverse.takeWhile (fun c => c ≠ '.')).length
  let stemLen := if extLen + 1 < name.length then name.length - extLen - 1
    else name.length
  String.mk (dir ++ name.take stemLen) ++ ".js.map"

/-- The archive branch of `process_script` (lines 135-172): write the bytes,
try the sibling `url + ".map"` download (writing it and bumping
`source_maps` when non-empty), persist a file record, queue the file for
parsing and bump `new_files`. -/
def addScript (hashFn : List Nat → String)
    (download : String → Option (List Nat)) (domain sessionDir : String)
    (st : CapState) (s : Script) (content : List Nat) : CapState :=
  let h := hashFn content
  let localPath := urlToLocalPath sessionDir s.src
  let mapContent := download (s.src ++ ".map")
  let mapWrite : List (String × List Nat) :=
    match mapContent with
    | some mc => if mc = [] then [] else [(withSuffixJsMap localPath, mc)]
    | none => []
  let mapPath : Option String :=
    match mapContent with
    | some mc => if mc = [] then none else some (withSuffixJsMap localPath)
    | none => none
  { st with
    written := st.written ++ [(localPath, content)] ++ mapWrite
    sourceMaps := st.sourceMaps + (if mapPath.isSome then 1 else 0)
    index := st.index ++ [(s.src, h)]
    records := st.records ++
      [{ url := s.src, hash := h, domain := domain
         localPath := localPath, mapPath := mapPath.getD ""
         sourceMapRestored := mapPath.isSome }]
    parseQueue := st.parseQueue ++
      [{ path := localPath, mapPath := mapPath.getD "", url := s.src }]
    newFiles := st.newFiles + 1 }

/-- The body of `process_script` (lines 118-172) for one script tag, executed
against the shared state: empty `src` or a falsy download (`None` or zero
bytes) aborts the task with no state change; with `force_refresh` unset and
the `(url, hash)` pair already indexed only `skipped` is incremented;
otherwise the archive branch (`addScript`) runs. -/
def processScript (hashFn : List Nat → String)
    (download : String → Option (List Nat)) (force : Bool)
    (domain sessionDir : String) (st : CapState) (s : Script) : CapState :=
  if s.src = "" then st
  else
    match download s.src with
    | none => st
    | some content =>
        if content = [] then st
        else if force = false ∧ hashExists s.src (hashFn content) st.index then
          { st with skipped := st.skipped + 1 }
        else addScript hashFn download domain sessionDir st s content

/-- All download tasks of one capture run over the shared state (the
`asyncio.gather` of `process_script` tasks, whose index operations occur in
task order). -/
def captureScripts (hashFn : List Nat → String)
    (download : String → Option (List Nat)) (force : Bool)
    (domain sessionDir : String) (st : CapState) (scripts : List Script) :
    CapState :=
  scripts.foldl (processScript hashFn download force domain sessionDir) st

/-- Outcome of the external parsing/embedding/indexing chain invoked by
`_parse_and_index`: the worker replied with a success status and `n` chunks
were indexed, the worker replied with a non-success status, or an exception
was raised somewhere in the chain (worker launch failure, worker
unresponsive, embedding API error). -/
inductive ParseChainOutcome where
  | respSuccess (n : Nat)
  | respError (msg : String)
  | exc (msg : String)
  deriving Repr, DecidableEq

/-- `Pipeline._parse_and_index` as observed by `capture_page`: an error-status
reply is logged and yields `0`; an exception propagates. -/
def parseAndIndexModel : ParseChainOutcome → Except String Nat
  | ParseChainOutcome.respSuccess n => Except.ok n
  | ParseChainOutcome.respError _ => Except.ok 0
  | ParseChainOutcome.exc m => Except.error m

/-- The errors a capture call can surface, classified: top-level connectivity
errors (discovery/launch/tab/connect failures, raised before the download
phase) versus an exception escaping the parse/embed/index chain. -/
inductive CaptureError where
  | connectivity (msg : String)
  | parseChain (msg : String)
  deriving Repr, DecidableEq

/-- Is the error one of the top-level connectivity errors? -/
def CaptureError.isConnectivity : CaptureError → Bool
  | CaptureError.connectivity _ => true
  | CaptureError.parseChain _ => false

/-- The `stats` dict returned by `capture_page`. -/
structure CaptureStats where
  newFiles : Nat
  skipped : Nat
  sourceMaps : Nat
  chunksIndexed : Nat
  storagePath : String
  deriving Repr, DecidableEq

/-- Package a finished capture state into the returned stats. -/
def statsOf (sessionDir : String) (st : CapState) (chunks : Nat) :
    CaptureStats :=
  { newFiles := st.newFiles, skipped := st.skipped
    sourceMaps := st.sourceMaps, chunksIndexed := chunks
    storagePath := sessionDir }

/-- `Pipeline.capture_page` from the point where the connection and the
initial protocol commands have succeeded: run every download task, then —
only when files were queued — invoke the parse chain, whose `ok` count fills
`chunks_indexed` and whose exception propagates out of the call. -/
def capturePageAfterConnect (hashFn : List Nat → String)
    (download : String → Option (List Nat)) (force : Bool)
    (domain sessionDir : String) (index0 : List (String × String))
    (scripts : List Script) (pout : ParseChainOutcome) :
    Except CaptureError CaptureStats :=
  let st := captureScripts hashFn download force domain sessionDir
    (initCapState index0) scripts
  if st.parseQueue = [] then Except.ok (statsOf sessionDir st 0)
  else
    match parseAndIndexModel pout with
    | Except.ok n => Except.ok (statsOf sessionDir st n)
    | Except.error m => Except.error (CaptureError.parseChain m)

/-! ## Helper lemmas -/

/-- `startswith` with an empty needle always succeeds. -/
theorem pyStartsWith_empty (s : String) : pyStartsWith s "" = true := by
  unfold pyStartsWith
  have h : ("" : String).data = [] := rfl
  rw [h, List.isPrefixOf_nil_left]

/-- Dropping leading matches never leaves a matching head. -/
theorem dropWhile_head_not (p : Char → Bool) :
    ∀ (l : List Char) (c : Char) (t : List Char),
      l.dropWhile p = c :: t → p c = false := by
  intro l
  induction l with
  | nil => intro c t h; simp [List.dropWhile] at h
  | cons a l ih =>
      intro c t h
      rw [List.dropWhile_cons] at h
      by_cases ha : p a = true
      · rw [if_pos ha] at h
        exact ih c t h
      · rw [if_neg ha] at h
        injection h with h1 h2
        subst h1
        simpa using ha

/-- `rstrip("/")` never yields the one-slash string. -/
theorem rstripSlash_ne_slash (s : String) : rstripSlash s ≠ "/" := by
  intro h
  have hd : (rstripSlash s).data = ['/'] := by rw [h]
  unfold rstripSlash at hd
  have h2 : (s.data.reverse.dropWhile (fun c => c = '/')) = ['/'] := by
    have := congrArg List.reverse hd
    simpa using this
  have := dropWhile_head_not (fun c => c = '/') s.data.reverse '/' [] h2
  simp at this

/-- `rstrip("/")` of the empty and of the root path are empty. -/
theorem rstripSlash_root : rstripSlash "" = "" ∧ rstripSlash "/" = "" := ⟨rfl, rfl⟩

/-! ## C10 -/

/-- C10: for every URL whose parsed network location is empty (such as the
empty string or a bare path), `extract_domain` returns the literal string
`"unknown"`, and the capture session directory becomes
`storagePath/UTC-date/unknown` rather than containing an empty segment. -/
theorem c10_extract_domain_unknown (url baseStorage timestamp : String)
    (h : urlparseNetloc url = "") :
    extractDomain url = "unknown" ∧
    captureSessionDir baseStorage timestamp url =
      [baseStorage, timestamp, "unknown"] ∧
    ("unknown" : String) ≠ "" := by
  have hdom : extractDomain url = "unknown" := by
    simp [extractDomain, h]
  refine ⟨hdom, ?_, by decide⟩
  unfold captureSessionDir
  rw [hdom]

/-- Witness for C10 at the empty URL and at a bare path. -/
theorem c10_extract_domain_unknown_witness :
    (extractDomain "" = "unknown" ∧
      captureSessionDir "/archives" "2026-10-12" "" =
        ["/archives", "2026-10-12", "unknown"] ∧
      ("unknown" : String) ≠ "") ∧
    (extractDomain "/foo/bar" = "unknown" ∧
      captureSessionDir "/archives" "2026-10-12" "/foo/bar" =
        ["/archives", "2026-10-12", "unknown"] ∧
      ("unknown" : String) ≠ "") :=
  ⟨c10_extract_domain_unknown "" "/archives" "2026-10-12" rfl,
   c10_extract_domain_unknown "/foo/bar" "/archives" "2026-10-12" rfl⟩

/-! ## C4 -/

/-- C4: the tab-match predicate holds exactly when the tab URL's host equals
the target's host case-insensitively and either the target has no path or a
root path, or the tab's path starts with the target's path after
trailing-slash normalization (`urlMatchesSpec` states the spec's wording, and
it agrees with the source predicate `urlMatchesTarget` everywhere); and for
target `https://a.com/docs` against tabs `https://a.com/docs/page1` and
`https://b.com/docs`, selection returns the first tab and not the second. -/
theorem c4_tab_match :
    (∀ pageUrl targetUrl,
        urlMatchesTarget pageUrl targetUrl = urlMatchesSpec pageUrl targetUrl) ∧
    matchTab
        [{ type := "page", url := "https://a.com/docs/page1", wsUrl := some "w1" },
         { type := "page", url := "https://b.com/docs", wsUrl := some "w2" }]
        "https://a.com/docs" =
      some { type := "page", url := "https://a.com/docs/page1", wsUrl := some "w1" } ∧
    urlMatchesTarget "https://a.com/docs/page1" "https://a.com/docs" = true ∧
    urlMatchesTarget "https://b.com/docs" "https://a.com/docs" = false := by
  refine ⟨?_, by decide, by decide, by decide⟩
  intro p t
  unfold urlMatchesTarget urlMatchesSpec
  by_cases hd : pyLower (urlparseNetloc t) = pyLower (urlparseNetloc p)
  · rw [if_neg (by simp [hd])]
    have hsymm : (decide (pyLower (urlparseNetloc p) = pyLower (urlparseNetloc t))) = true := by
      simp [hd]
    rw [hsymm, Bool.true_and]
    by_cases htp : rstripSlash (urlparsePath t) = ""
    · rw [htp, pyStartsWith_empty]
      simp [htp]
    · have h2 : decide (rstripSlash (urlparsePath t) = "/") = false := by
        simp [rstripSlash_ne_slash (urlparsePath t)]
      have h3 : decide (urlparsePath t = "") = false := by
        simp only [decide_eq_false_iff_not]
        intro h
        exact htp (by rw [h]; decide)
      have h4 : decide (urlparsePath t = "/") = false := by
        simp only [decide_eq_false_iff_not]
        intro h
        exact htp (by rw [h]; decide)
      simp only [h2, h3, h4, decide_eq_false htp, Bool.false_or]
  · rw [if_pos (by simp [hd])]
    have hne : (decide (pyLower (urlparseNetloc p) = pyLower (urlparseNetloc t))) = false := by
      simp only [decide_eq_false_iff_not]
      exact fun h => hd h.symm
    rw [hne, Bool.false_and]

/-! ## C3 -/

/-- With every socket open failing, the retry loop with `rem + 1` attempts
left ends in the final `ConnectionRefusedError` reporting `maxR` attempts,
after making `rem + 1` further attempts and sleeping `rem` more times. -/
theorem connectGo_allFail (tabs : List ConnTab) (ok : Nat → String → Bool)
    (hfail : ∀ i u, ok i u = false) (maxR : Nat) :
    ∀ rem cur failed attempted sleeps,
      (connectGo tabs ok maxR (rem + 1) cur failed attempted sleeps).retriesOf
          = some maxR ∧
      (connectGo tabs ok maxR (rem + 1) cur failed attempted sleeps).attemptedOf.length
          = attempted.length + (rem + 1) ∧
      (connectGo tabs ok maxR (rem + 1) cur failed attempted sleeps).sleepsOf
          = sleeps + rem := by
  intro rem
  induction rem with
  | zero =>
      intro cur failed attempted sleeps
      simp [connectGo, hfail, ConnOutcome.retriesOf, ConnOutcome.attemptedOf,
        ConnOutcome.sleepsOf]
  | succ n ih =>
      intro cur failed attempted sleeps
      have step : connectGo tabs ok maxR (n + 1 + 1) cur failed attempted sleeps
          = connectGo tabs ok maxR (n + 1)
              (match nextTabChoice tabs cur
                  (if cur ∈ failed then failed else failed ++ [cur]) with
                | some t => t.wsUrl
                | none => cur)
              (if cur ∈ failed then failed else failed ++ [cur])
              (attempted ++ [cur]) (sleeps + 1) := by
        simp [connectGo, hfail]
      rw [step]
      obtain ⟨ih1, ih2, ih3⟩ := ih _ _ (attempted ++ [cur]) (sleeps + 1)
      refine ⟨ih1, ?_, ?_⟩
      · rw [ih2]
        simp
        omega
      · rw [ih3]
        omega

/-- C3: with every socket open failing, the supervisor marks the attempted
debug URL as failed and picks the next untried tab first, falling back to
previously failed tabs (in discovery order) only when none is untried; it
sleeps between attempts (`maxReconnect - 1` sleeps for `maxReconnect`
attempts) and raises the final connection error reporting the attempt count
only at the last attempt; concretely, with `maxReconnect = 3` and two
candidate tabs both failing, the attempts are `wsA, wsB, wsA` — the third
attempt retries the previously failed tab `wsA` instead of raising before
attempt 3. -/
theorem c3_reconnect_supervisor :
    (∀ tabs ok maxR init, (∀ i u, ok i u = false) → 1 ≤ maxR →
        (connectAttempts tabs ok maxR init).retriesOf = some maxR ∧
        (connectAttempts tabs ok maxR init).attemptedOf.length = maxR ∧
        (connectAttempts tabs ok maxR init).sleepsOf = maxR - 1) ∧
    (∀ tabs cur failed t0,
        tabs.find? (fun t => t.wsUrl ≠ cur && !(failed.contains t.wsUrl)) = some t0 →
        nextTabChoice tabs cur failed = some t0) ∧
    (∀ tabs cur failed,
        tabs.find? (fun t => t.wsUrl ≠ cur && !(failed.contains t.wsUrl)) = none →
        nextTabChoice tabs cur failed = tabs.find? (fun t => t.wsUrl ≠ cur)) ∧
    connectAttempts [{ wsUrl := "wsA", url := "a" }, { wsUrl := "wsB", url := "b" }]
        (fun _ _ => false) 3 "wsA"
      = ConnOutcome.failure 3 ["wsA", "wsB", "wsA"] 2 := by
  refine ⟨?_, ?_, ?_, by decide⟩
  · intro tabs ok maxR init hfail hmax
    obtain ⟨m, rfl⟩ : ∃ m, maxR = m + 1 := ⟨maxR - 1, by omega⟩
    have h := connectGo_allFail tabs ok hfail (m + 1) m init [] [] 0
    unfold connectAttempts
    simpa using h
  · intro tabs cur failed t0 h
    unfold nextTabChoice
    rw [h]
  · intro tabs cur failed h
    unfold nextTabChoice
    rw [h]

/-- Witness for C3 on the two-tab, three-attempt scenario. -/
theorem c3_reconnect_supervisor_witness :
    ((connectAttempts [{ wsUrl := "wsA", url := "a" }, { wsUrl := "wsB", url := "b" }]
        (fun _ _ => false) 3 "wsA").retriesOf = some 3 ∧
      (connectAttempts [{ wsUrl := "wsA", url := "a" }, { wsUrl := "wsB", url := "b" }]
        (fun _ _ => false) 3 "wsA").attemptedOf.length = 3 ∧
      (connectAttempts [{ wsUrl := "wsA", url := "a" }, { wsUrl := "wsB", url := "b" }]
        (fun _ _ => false) 3 "wsA").sleepsOf = 2) ∧
    nextTabChoice [{ wsUrl := "wsA", url := "a" }, { wsUrl := "wsB", url := "b" }]
        "wsA" ["wsA"] = some { wsUrl := "wsB", url := "b" } ∧
    nextTabChoice [{ wsUrl := "wsA", url := "a" }, { wsUrl := "wsB", url := "b" }]
        "wsB" ["wsA", "wsB"] = some { wsUrl := "wsA", url := "a" } := by
  refine ⟨c3_reconnect_supervisor.1 _ _ 3 "wsA" (fun _ _ => rfl) (by omega), ?_, ?_⟩
  · exact c3_reconnect_supervisor.2.1 _ _ _ _ (by decide)
  · rw [c3_reconnect_supervisor.2.2.1 _ _ _ (by decide)]
    decide

/-! ## C9 -/

/-- `enqueueEvent` never touches the id counter. -/
theorem enqueueEvent_msgId (s : ConnState) (f : Frame) :
    (enqueueEvent s f).msgId = s.msgId := by
  unfold enqueueEvent
  split <;> rfl

/-- A reader-loop iteration never touches the id counter. -/
theorem readerStep_msgId (s : ConnState) (f : Frame) :
    (readerStep s f).msgId = s.msgId := by
  unfold readerStep
  split
  · split
    · rfl
    · split
      · exact enqueueEvent_msgId s f
      · rfl
  · split
    · exact enqueueEvent_msgId s f
    · rfl

/-- Along any operation sequence the collected ids are exactly the arithmetic
range starting right above the current counter, and the counter advances by
the number of allocations. -/
theorem runOps_spec (ops : List SessionOp) : ∀ s : ConnState,
    (runOps s ops).2 = List.range' (s.msgId + 1) (ops.count SessionOp.alloc) ∧
    (runOps s ops).1.msgId = s.msgId + ops.count SessionOp.alloc := by
  induction ops with
  | nil => intro s; simp [runOps]
  | cons op rest ih =>
      intro s
      cases op with
      | alloc =>
          obtain ⟨ih1, ih2⟩ := ih { s with
            msgId := s.msgId + 1
            pending := pendingAssign s.pending (s.msgId + 1) SlotState.waiting }
          simp only [] at ih1 ih2
          refine ⟨?_, ?_⟩
          · simp only [runOps, sessionStep, allocId]
            rw [ih1, List.count_cons_self, List.range'_succ]
            simp
          · simp only [runOps, sessionStep, allocId]
            rw [ih2, List.count_cons_self]
            omega
      | reader f =>
          obtain ⟨ih1, ih2⟩ := ih (readerStep s f)
          have hm := readerStep_msgId s f
          refine ⟨?_, ?_⟩
          · simp only [runOps, sessionStep]
            rw [ih1, hm, List.count_cons_of_ne (by simp)]
            simp
          · simp only [runOps, sessionStep]
            rw [ih2, hm, List.count_cons_of_ne (by simp)]
      | drain =>
          obtain ⟨ih1, ih2⟩ := ih { s with events := [] }
          refine ⟨?_, ?_⟩
          · simp only [runOps, sessionStep]
            rw [ih1, List.count_cons_of_ne (by simp)]
            simp
          · simp only [runOps, sessionStep]
            rw [ih2, List.count_cons_of_ne (by simp)]
      | pop i =>
          obtain ⟨ih1, ih2⟩ := ih { s with pending := popPending s.pending i }
          refine ⟨?_, ?_⟩
          · simp only [runOps, sessionStep]
            rw [ih1, List.count_cons_of_ne (by simp)]
            simp
          · simp only [runOps, sessionStep]
            rw [ih2, List.count_cons_of_ne (by simp)]
      | clearPending =>
          obtain ⟨ih1, ih2⟩ := ih { s with pending := [] }
          refine ⟨?_, ?_⟩
          · simp only [runOps, sessionStep]
            rw [ih1, List.count_cons_of_ne (by simp)]
            simp
          · simp only [runOps, sessionStep]
            rw [ih2, List.count_cons_of_ne (by simp)]

/-- C9: for every sequence of session operations the allocated message ids
form the contiguous range above the starting counter, hence are strictly
increasing, pairwise distinct (never reused), and all exceed the starting
counter; and the counter only ever advances — by exactly the number of
allocations (command dispatches and health checks), never being reset or
decremented by any session operation. -/
theorem c9_msg_ids_strictly_increasing (s : ConnState) (ops : List SessionOp) :
    (runOps s ops).2 = List.range' (s.msgId + 1) (ops.count SessionOp.alloc) ∧
    (runOps s ops).1.msgId = s.msgId + ops.count SessionOp.alloc ∧
    s.msgId ≤ (runOps s ops).1.msgId ∧
    List.Pairwise (· < ·) (runOps s ops).2 ∧
    (runOps s ops).2.Nodup ∧
    (∀ i ∈ (runOps s ops).2, s.msgId < i) := by
  obtain ⟨h1, h2⟩ := runOps_spec ops s
  refine ⟨h1, h2, by omega, ?_, ?_, ?_⟩
  · rw [h1]
    exact List.pairwise_lt_range' _ _
  · rw [h1]
    exact List.nodup_range' _ _
  · intro i hi
    rw [h1] at hi
    obtain ⟨j, hj, rfl⟩ := List.mem_range'.mp hi
    omega

/-- Witness for C9 on a concrete three-operation trace. -/
theorem c9_msg_ids_strictly_increasing_witness :
    (runOps { msgId := 0, pending := [], events := [], queueMax := 0 }
        [SessionOp.alloc, SessionOp.drain, SessionOp.alloc]).2
      = List.range' 1 2 ∧ (0 : Nat) < 1 := by
  constructor
  · exact (c9_msg_ids_strictly_increasing
      { msgId := 0, pending := [], events := [], queueMax := 0 }
      [SessionOp.alloc, SessionOp.drain, SessionOp.alloc]).1
  · exact (c9_msg_ids_strictly_increasing
      { msgId := 0, pending := [], events := [], queueMax := 0 }
      [SessionOp.alloc, SessionOp.drain, SessionOp.alloc]).2.2.2.2.2 1 (by decide)

/-! ## Pending-table lemmas shared by the reader and dispatcher claims -/

/-- Resolving a slot never changes the key sequence of the table. -/
theorem resolveSlot_keys (ps : List (Nat × SlotState)) (i : Nat) (f : Frame) :
    (resolveSlot ps i f).map Prod.fst = ps.map Prod.fst := by
  unfold resolveSlot
  induction ps with
  | nil => rfl
  | cons p rest ih =>
      obtain ⟨pk, pv⟩ := p
      simp only [List.map_cons, ih, List.cons.injEq, and_true]
      by_cases h : pk = i ∧ pv = SlotState.waiting
      · rw [if_pos h]
      · rw [if_neg h]

/-- A waiting slot under `i` is resolved in place with the delivered frame. -/
theorem lookup_resolveSlot_waiting (i : Nat) (f : Frame) :
    ∀ ps : List (Nat × SlotState), ps.lookup i = some SlotState.waiting →
      (resolveSlot ps i f).lookup i = some (SlotState.resolved f) := by
  intro ps
  induction ps with
  | nil => intro h; simp at h
  | cons p rest ih =>
      obtain ⟨pk, pv⟩ := p
      intro h
      by_cases hk : i = pk
      · subst hk
        rw [List.lookup_cons_self] at h
        injection h with h
        subst h
        simp [resolveSlot]
      · have hb : (i == pk) = false := beq_eq_false_iff_ne.mpr hk
        rw [List.lookup_cons, hb] at h
        simp only [resolveSlot, List.map_cons]
        rw [if_neg (fun hc => hk hc.1.symm)]
        rw [List.lookup_cons, hb]
        exact ih h

/-- An already-resolved slot under `i` is left as it is. -/
theorem lookup_resolveSlot_resolved (i : Nat) (f g : Frame) :
    ∀ ps : List (Nat × SlotState), ps.lookup i = some (SlotState.resolved g) →
      (resolveSlot ps i f).lookup i = some (SlotState.resolved g) := by
  intro ps
  induction ps with
  | nil => intro h; simp at h
  | cons p rest ih =>
      obtain ⟨pk, pv⟩ := p
      intro h
      by_cases hk : i = pk
      · subst hk
        rw [List.lookup_cons_self] at h
        injection h with h
        subst h
        have : ¬(i = i ∧ SlotState.resolved g = SlotState.waiting) := by simp
        simp only [resolveSlot, List.map_cons, if_neg this]
        simp
      · have hb : (i == pk) = false := beq_eq_false_iff_ne.mpr hk
        rw [List.lookup_cons, hb] at h
        simp only [resolveSlot, List.map_cons]
        rw [if_neg (fun hc => hk hc.1.symm)]
        rw [List.lookup_cons, hb]
        exact ih h

/-- Resolving slot `i` does not change what any other key maps to. -/
theorem lookup_resolveSlot_ne (i j : Nat) (f : Frame) (hne : j ≠ i) :
    ∀ ps : List (Nat × SlotState),
      (resolveSlot ps i f).lookup j = ps.lookup j := by
  intro ps
  induction ps with
  | nil => rfl
  | cons p rest ih =>
      obtain ⟨pk, pv⟩ := p
      by_cases hcond : pk = i ∧ pv = SlotState.waiting
      · simp only [resolveSlot, List.map_cons, if_pos hcond]
        rw [List.lookup_cons, List.lookup_cons, hcond.1]
        have hbi : (j == i) = false := beq_eq_false_iff_ne.mpr hne
        rw [hbi]
        exact ih
      · simp only [resolveSlot, List.map_cons, if_neg hcond]
        rw [List.lookup_cons, List.lookup_cons]
        cases hb : j == pk
        · exact ih
        · rfl

/-- Resolving a key that is absent from the table is a no-op. -/
theorem resolveSlot_not_mem (i : Nat) (f : Frame) :
    ∀ ps : List (Nat × SlotState), i ∉ ps.map Prod.fst →
      resolveSlot ps i f = ps := by
  intro ps
  induction ps with
  | nil => intro _; rfl
  | cons p rest ih =>
      obtain ⟨pk, pv⟩ := p
      intro h
      simp only [List.map_cons, List.mem_cons, not_or] at h
      simp only [resolveSlot, List.map_cons]
      rw [if_neg (fun hc => h.1 hc.1.symm)]
      have := ih h.2
      unfold resolveSlot at this
      rw [this]

/-- With duplicate-free keys (as in a Python dict), resolving a key whose
slot is already resolved leaves the whole table unchanged. -/
theorem resolveSlot_resolved_eq (i : Nat) (f g : Frame) :
    ∀ ps : List (Nat × SlotState), (ps.map Prod.fst).Nodup →
      ps.lookup i = some (SlotState.resolved g) →
      resolveSlot ps i f = ps := by
  intro ps
  induction ps with
  | nil => intro _ h; simp at h
  | cons p rest ih =>
      obtain ⟨pk, pv⟩ := p
      intro hnd h
      simp only [List.map_cons, List.nodup_cons] at hnd
      by_cases hk : i = pk
      · subst hk
        rw [List.lookup_cons_self] at h
        injection h with h
        subst h
        simp only [resolveSlot, List.map_cons]
        rw [if_neg (by simp)]
        have := resolveSlot_not_mem i f rest hnd.1
        unfold resolveSlot at this
        rw [this]
      · have hb : (i == pk) = false := beq_eq_false_iff_ne.mpr hk
        rw [List.lookup_cons, hb] at h
        simp only [resolveSlot, List.map_cons]
        rw [if_neg (fun hc => hk hc.1.symm)]
        have := ih hnd.2 h
        unfold resolveSlot at this
        rw [this]

/-- Dict assignment makes the assigned key map to the assigned value. -/
theorem lookup_pendingAssign_self (k : Nat) (v : SlotState) :
    ∀ ps : List (Nat × SlotState),
      (pendingAssign ps k v).lookup k = some v := by
  have hover : ∀ ps : List (Nat × SlotState), (ps.lookup k).isSome →
      (ps.map (fun kv => if kv.1 = k then (k, v) else kv)).lookup k = some v := by
    intro ps
    induction ps with
    | nil => intro h; simp at h
    | cons p rest ih =>
        obtain ⟨pk, pv⟩ := p
        intro h
        by_cases hk : k = pk
        · subst hk
          simp only [List.map_cons, if_pos rfl]
          simp
        · have hb : (k == pk) = false := beq_eq_false_iff_ne.mpr hk
          rw [List.lookup_cons, hb] at h
          simp only [List.map_cons]
          rw [if_neg (fun hc => hk hc.symm)]
          rw [List.lookup_cons, hb]
          exact ih h
  intro ps
  unfold pendingAssign
  by_cases h : (ps.lookup k).isSome
  · rw [if_pos h]
    exact hover ps h
  · rw [if_neg h]
    rw [List.lookup_append]
    simp only [Option.not_isSome_iff_eq_none] at h
    rw [h]
    simp

/-- Popping a key removes it from the table. -/
theorem lookup_popPending_self (i : Nat) :
    ∀ ps : List (Nat × SlotState), (popPending ps i).lookup i = none := by
  intro ps
  rw [List.lookup_eq_none_iff]
  intro p hp
  have := List.mem_filter.mp hp
  simp only [decide_not] at this
  have hne : ¬(p.1 = i) := by
    have h2 := this.2
    simpa using h2
  simpa using fun he => hne he.symm

/-! ## C2 -/

/-- Counterexample to C2 as frozen: after the reader loop processes a frame
whose id `1` is pending, the completion slot is resolved but the entry is
*still present* in the pending-command table — the reader does not remove it
(removal happens in `_send_command`'s timeout handler and `finally` block). -/
theorem c2_reader_counterexample :
    ((readerStep
        { msgId := 5, pending := [(1, SlotState.waiting)], events := [], queueMax := 0 }
        { idF := some 1, methodF := none, paramsF := none, errorF := none,
          resultF := some "r" }).pending.lookup 1)
      = some (SlotState.resolved
          { idF := some 1, methodF := none, paramsF := none, errorF := none,
            resultF := some "r" }) := by decide

/-- C2 (amended): for every frame read by the reader loop — if the frame
carries an id present in the pending table with a waiting slot, the slot is
resolved in place with the frame, the table's keys and the event queue are
unchanged (removal of the entry is performed by the awaiting sender, not the
reader); if the id's slot is already resolved the state is unchanged
entirely; if the frame carries a method and no matching pending id it is
appended to the event queue, and is dropped silently when the queue is
full. -/
theorem c2_reader_step_amended :
    (∀ (s : ConnState) (i : Nat) (f : Frame), f.idF = some i →
        s.pending.lookup i = some SlotState.waiting →
        (readerStep s f).pending.lookup i = some (SlotState.resolved f) ∧
        (readerStep s f).pending.map Prod.fst = s.pending.map Prod.fst ∧
        (readerStep s f).events = s.events) ∧
    (∀ (s : ConnState) (i : Nat) (f g : Frame), f.idF = some i →
        (s.pending.map Prod.fst).Nodup →
        s.pending.lookup i = some (SlotState.resolved g) →
        readerStep s f = s) ∧
    (∀ (s : ConnState) (f : Frame), f.idF = none → f.methodF.isSome →
        readerStep s f = enqueueEvent s f) ∧
    (∀ (s : ConnState) (i : Nat) (f : Frame), f.idF = some i →
        s.pending.lookup i = none → f.methodF.isSome →
        readerStep s f = enqueueEvent s f) ∧
    (∀ (s : ConnState) (f : Frame), s.queueMax ≠ 0 →
        s.queueMax ≤ s.events.length → enqueueEvent s f = s) ∧
    (∀ (s : ConnState) (f : Frame), s.queueMax = 0 ∨ s.events.length < s.queueMax →
        enqueueEvent s f = { s with events := s.events ++ [f] }) := by
  refine ⟨?_, ?_, ?_, ?_, ?_, ?_⟩
  · intro s i f hid h
    unfold readerStep
    rw [hid]
    simp only []
    rw [if_pos (by rw [h]; rfl)]
    exact ⟨lookup_resolveSlot_waiting i f s.pending h,
      resolveSlot_keys s.pending i f, rfl⟩
  · intro s i f g hid hnd h
    unfold readerStep
    rw [hid]
    simp only []
    rw [if_pos (by rw [h]; rfl)]
    rw [resolveSlot_resolved_eq i f g s.pending hnd h]
  · intro s f hid hm
    unfold readerStep
    rw [hid]
    simp only []
    rw [if_pos hm]
  · intro s i f hid h hm
    unfold readerStep
    rw [hid]
    simp only []
    rw [if_neg (by rw [h]; simp), if_pos hm]
  · intro s f h1 h2
    unfold enqueueEvent
    rw [if_pos ⟨h1, h2⟩]
  · intro s f h
    unfold enqueueEvent
    have hneg : ¬(s.queueMax ≠ 0 ∧ s.queueMax ≤ s.events.length) := by
      intro hc
      rcases h with h | h
      · exact hc.1 h
      · omega
    rw [if_neg hneg]

/-- Witness for C2 (amended) on concrete frames and queues. -/
theorem c2_reader_step_amended_witness :
    ((readerStep
        { msgId := 5, pending := [(1, SlotState.waiting)], events := [], queueMax := 0 }
        { idF := some 1, methodF := none, paramsF := none, errorF := none,
          resultF := some "ok" }).pending.lookup 1
        = some (SlotState.resolved
            { idF := some 1, methodF := none, paramsF := none, errorF := none,
              resultF := some "ok" }) ∧
      (readerStep
        { msgId := 5, pending := [(1, SlotState.waiting)], events := [], queueMax := 0 }
        { idF := some 1, methodF := none, paramsF := none, errorF := none,
          resultF := some "ok" }).pending.map Prod.fst = [1] ∧
      (readerStep
        { msgId := 5, pending := [(1, SlotState.waiting)], events := [], queueMax := 0 }
        { idF := some 1, methodF := none, paramsF := none, errorF := none,
          resultF := some "ok" }).events = []) ∧
    enqueueEvent
        { msgId := 0, pending := [],
          events :=
            [{ idF := none, methodF := some "Page.loadEventFired",
               paramsF := none, errorF := none, resultF := none }],
          queueMax := 1 }
        { idF := none, methodF := some "Network.requestWillBeSent",
          paramsF := none, errorF := none, resultF := none }
      = { msgId := 0, pending := [],
          events :=
            [{ idF := none, methodF := some "Page.loadEventFired",
               paramsF := none, errorF := none, resultF := none }],
          queueMax := 1 } := by
  constructor
  · have h := c2_reader_step_amended.1
      { msgId := 5, pending := [(1, SlotState.waiting)], events := [], queueMax := 0 }
      1
      { idF := some 1, methodF := none, paramsF := none, errorF := none,
        resultF := some "ok" }
      rfl (by decide)
    exact ⟨h.1, by rw [h.2.1]; decide, h.2.2⟩
  · exact c2_reader_step_amended.2.2.2.2.1
      { msgId := 0, pending := [],
        events :=
          [{ idF := none, methodF := some "Page.loadEventFired",
             paramsF := none, errorF := none, resultF := none }],
        queueMax := 1 }
      { idF := none, methodF := some "Network.requestWillBeSent",
        paramsF := none, errorF := none, resultF := none }
      (by decide) (by decide)

/-! ## C1 -/

/-- `enqueueEvent` touches only the event queue. -/
theorem enqueueEvent_pending (s : ConnState) (f : Frame) :
    (enqueueEvent s f).pending = s.pending := by
  unfold enqueueEvent
  split <;> rfl

/-- A resolved slot stays resolved (with the same frame) across any
reader-loop iteration: late duplicates and unrelated frames cannot
re-deliver. -/
theorem readerStep_preserves_resolved (cid : Nat) (g : Frame) (s : ConnState)
    (f : Frame) (h : s.pending.lookup cid = some (SlotState.resolved g)) :
    (readerStep s f).pending.lookup cid = some (SlotState.resolved g) := by
  unfold readerStep
  cases hf : f.idF with
  | none =>
      simp only []
      split
      · rw [enqueueEvent_pending]; exact h
      · exact h
  | some i =>
      simp only []
      by_cases hp : (s.pending.lookup i).isSome
      · rw [if_pos hp]
        by_cases hic : cid = i
        · subst hic
          exact lookup_resolveSlot_resolved cid f g s.pending h
        · rw [lookup_resolveSlot_ne i cid f hic]
          exact h
      · rw [if_neg hp]
        split
        · rw [enqueueEvent_pending]; exact h
        · exact h

/-- A waiting slot stays waiting across a reader-loop iteration on any frame
not carrying its id. -/
theorem readerStep_preserves_waiting (cid : Nat) (s : ConnState) (f : Frame)
    (h : s.pending.lookup cid = some SlotState.waiting)
    (hne : f.idF ≠ some cid) :
    (readerStep s f).pending.lookup cid = some SlotState.waiting := by
  unfold readerStep
  cases hf : f.idF with
  | none =>
      simp only []
      split
      · rw [enqueueEvent_pending]; exact h
      · exact h
  | some i =>
      have hic : cid ≠ i := by
        intro hc
        exact hne (by rw [hf, hc])
      simp only []
      by_cases hp : (s.pending.lookup i).isSome
      · rw [if_pos hp]
        rw [lookup_resolveSlot_ne i cid f hic]
        exact h
      · rw [if_neg hp]
        split
        · rw [enqueueEvent_pending]; exact h
        · exact h

/-- A frame carrying the id of a waiting slot resolves exactly that slot. -/
theorem readerStep_delivers (cid : Nat) (s : ConnState) (f : Frame)
    (h : s.pending.lookup cid = some SlotState.waiting)
    (hid : f.idF = some cid) :
    (readerStep s f).pending.lookup cid = some (SlotState.resolved f) := by
  unfold readerStep
  rw [hid]
  simp only []
  rw [if_pos (by rw [h]; rfl)]
  exact lookup_resolveSlot_waiting cid f s.pending h

/-- Once resolved with `g`, the slot still holds `g` after any further
frames. -/
theorem readerRun_resolved (cid : Nat) (g : Frame) :
    ∀ (fs : List Frame) (s : ConnState),
      s.pending.lookup cid = some (SlotState.resolved g) →
      (readerRun s fs).pending.lookup cid = some (SlotState.resolved g) := by
  intro fs
  induction fs with
  | nil => intro s h; exact h
  | cons f rest ih =>
      intro s h
      exact ih _ (readerStep_preserves_resolved cid g s f h)

/-- Exactly-once delivery: after the reader loop processes any frame trace,
the slot registered under `cid` holds precisely the first frame of the trace
carrying id `cid` (and is still waiting if there is none) — regardless of how
events and responses for other ids are interleaved. -/
theorem readerRun_delivery (cid : Nat) :
    ∀ (fs : List Frame) (s : ConnState),
      s.pending.lookup cid = some SlotState.waiting →
      (readerRun s fs).pending.lookup cid
        = (match fs.find? (fun f => f.idF == some cid) with
           | some f => some (SlotState.resolved f)
           | none => some SlotState.waiting) := by
  intro fs
  induction fs with
  | nil => intro s h; simpa using h
  | cons f rest ih =>
      intro s h
      by_cases hf : f.idF = some cid
      · have hfb : (f.idF == some cid) = true := by rw [hf]; simp
        rw [show List.find? (fun g => g.idF == some cid) (f :: rest) = some f
          from List.find?_cons_of_pos rest hfb]
        exact readerRun_resolved cid f rest (readerStep s f)
          (readerStep_delivers cid s f h hf)
      · have hfb : (f.idF == some cid) = false := beq_eq_false_iff_ne.mpr hf
        rw [show List.find? (fun g => g.idF == some cid) (f :: rest)
            = List.find? (fun g => g.idF == some cid) rest
          from List.find?_cons_of_neg rest (by simp [hfb])]
        exact ih _ (readerStep_preserves_waiting cid s f h hf)

/-- C1: `_send_command` on an open session allocates the next message id,
registers a waiting completion slot under that id, transmits the frame
`{id, method, params}` and awaits with the 30-second timeout; on timeout the
slot is deregistered and a timeout error is raised; a response carrying an
error field raises a protocol error with the wire error payload (the slot
being deregistered in the `finally` block either way); and regardless of the
interleaving of unsolicited events and other responses, the slot registered
under the allocated id receives exactly the first frame carrying that id —
delivered once and never overwritten. -/
theorem c1_send_command_correlation :
    (∀ (s : ConnState) (method : String) (params : Option String),
        (sendRegister s method params).1.id = s.msgId + 1 ∧
        (sendRegister s method params).1.method = method ∧
        (sendRegister s method params).1.params = params ∧
        (sendRegister s method params).2.msgId = s.msgId + 1 ∧
        (sendRegister s method params).2.pending.lookup (s.msgId + 1)
          = some SlotState.waiting) ∧
    sendCommandTimeoutSec = 30 ∧
    (∀ (s : ConnState) (cid : Nat) (method : String),
        (sendFinish s cid method AwaitOutcome.timeout).1
          = SendResult.timeoutErr method ∧
        (sendFinish s cid method AwaitOutcome.timeout).2.pending.lookup cid
          = none) ∧
    (∀ (s : ConnState) (cid : Nat) (method : String) (f : Frame) (e : String),
        f.errorF = some e →
        (sendFinish s cid method (AwaitOutcome.completed f)).1
          = SendResult.protocolErr e ∧
        (sendFinish s cid method (AwaitOutcome.completed f)).2.pending.lookup cid
          = none) ∧
    (∀ (s : ConnState) (cid : Nat) (method : String) (f : Frame),
        f.errorF = none →
        (sendFinish s cid method (AwaitOutcome.completed f)).1
          = SendResult.ok f.resultF) ∧
    (∀ (s : ConnState) (method : String) (params : Option String)
        (fs : List Frame),
        (readerRun (sendRegister s method params).2 fs).pending.lookup (s.msgId + 1)
          = (match fs.find? (fun f => f.idF == some (s.msgId + 1)) with
             | some f => some (SlotState.resolved f)
             | none => some SlotState.waiting)) := by
  have hreg : ∀ (s : ConnState) (method : String) (params : Option String),
      (sendRegister s method params).2.pending.lookup (s.msgId + 1)
        = some SlotState.waiting := by
    intro s method params
    exact lookup_pendingAssign_self (s.msgId + 1) SlotState.waiting s.pending
  refine ⟨?_, rfl, ?_, ?_, ?_, ?_⟩
  · intro s method params
    exact ⟨rfl, rfl, rfl, rfl, hreg s method params⟩
  · intro s cid method
    exact ⟨rfl, lookup_popPending_self cid s.pending⟩
  · intro s cid method f e he
    unfold sendFinish
    simp only []
    rw [he]
    exact ⟨rfl, lookup_popPending_self cid s.pending⟩
  · intro s cid method f he
    unfold sendFinish
    simp only []
    rw [he]
  · intro s method params fs
    exact readerRun_delivery (s.msgId + 1) fs _ (hreg s method params)

/-- Witness for C1: a concrete dispatch of `Page.navigate` as command id 1 on
a fresh session, with the reader trace containing an unrelated event, the
response for id 1, and a late duplicate for id 1 — the slot holds the first
response only; plus the timeout and error-payload paths at concrete inputs. -/
theorem c1_send_command_correlation_witness :
    (readerRun
        (sendRegister { msgId := 0, pending := [], events := [], queueMax := 0 }
          "Page.navigate" (some "u")).2
        [{ idF := none, methodF := some "Page.loadEventFired", paramsF := none,
           errorF := none, resultF := none },
         { idF := some 1, methodF := none, paramsF := none, errorF := none,
           resultF := some "first" },
         { idF := some 1, methodF := none, paramsF := none, errorF := none,
           resultF := some "duplicate" }]).pending.lookup 1
      = some (SlotState.resolved
          { idF := some 1, methodF := none, paramsF := none, errorF := none,
            resultF := some "first" }) ∧
    (sendFinish (ConnState.mk 3 [(4, SlotState.waiting)] [] 0)
        4 "Runtime.evaluate" AwaitOutcome.timeout).1
      = SendResult.timeoutErr "Runtime.evaluate" ∧
    (sendFinish (ConnState.mk 3 [(4, SlotState.waiting)] [] 0)
        4 "Runtime.evaluate"
        (AwaitOutcome.completed
          { idF := some 4, methodF := none, paramsF := none,
            errorF := some "boom", resultF := none })).1
      = SendResult.protocolErr "boom" := by
  refine ⟨?_, ?_, ?_⟩
  · rw [c1_send_command_correlation.2.2.2.2.2
      { msgId := 0, pending := [], events := [], queueMax := 0 }
      "Page.navigate" (some "u")
      [{ idF := none, methodF := some "Page.loadEventFired", paramsF := none,
         errorF := none, resultF := none },
       { idF := some 1, methodF := none, paramsF := none, errorF := none,
         resultF := some "first" },
       { idF := some 1, methodF := none, paramsF := none, errorF := none,
         resultF := some "duplicate" }]]
    decide
  · exact (c1_send_command_correlation.2.2.1
      (ConnState.mk 3 [(4, SlotState.waiting)] [] 0) 4 "Runtime.evaluate").1
  · exact (c1_send_command_correlation.2.2.2.1
      (ConnState.mk 3 [(4, SlotState.waiting)] [] 0) 4 "Runtime.evaluate"
      { idF := some 4, methodF := none, paramsF := none,
        errorF := some "boom", resultF := none } "boom" rfl).1

/-! ## C7 -/

/-- The polling loop only ever reports a normal finish at a clock value past
its deadline. -/
theorem collectLoop_finished_time (endTime : ℤ) :
    ∀ (steps : List PollStep) (now : ℤ) (m entries : List (String × NetEntry))
      (t : ℤ),
      collectLoop endTime steps now m = LoopOutcome.finished entries t →
      endTime ≤ t := by
  intro steps
  induction steps with
  | nil =>
      intro now m entries t h
      unfold collectLoop at h
      by_cases hc : endTime ≤ now
      · rw [if_pos hc] at h
        injection h with h1 h2
        subst h2
        exact hc
      · rw [if_neg hc] at h
        simp at h
  | cons st rest ih =>
      intro now m entries t h
      unfold collectLoop at h
      by_cases hc : endTime ≤ now
      · rw [if_pos hc] at h
        injection h with h1 h2
        subst h2
        exact hc
      · rw [if_neg hc] at h
        cases st with
        | gotEvent e dt => exact ih _ _ _ _ h
        | timedOut => exact ih _ _ _ _ h
        | errored => simp at h

/-- C7: `collect_network_events(D)` returns normally only once at least `D`
(milliseconds, in this model) of wall-clock time have elapsed since the loop
started, and the `Network.disable` command of the `finally` block is issued
on both the normal and the exceptional exit path of the polling loop. -/
theorem c7_collect_duration_and_cleanup :
    (∀ (startTime duration : ℤ) (steps : List PollStep)
        (entries : List (String × NetEntry)) (t : ℤ),
        collectNetworkEvents startTime duration steps
          = LoopOutcome.finished entries t →
        startTime + duration ≤ t) ∧
    (∀ (startTime duration : ℤ) (steps : List PollStep),
        collectNetworkEvents startTime duration steps ≠ LoopOutcome.outOfSteps →
        "Network.disable" ∈ collectCmds startTime duration steps) := by
  constructor
  · intro st d steps entries t h
    exact collectLoop_finished_time (st + d) steps st [] entries t h
  · intro st d steps h
    unfold collectCmds
    cases hc : collectNetworkEvents st d steps with
    | finished m t => simp
    | raised => simp
    | outOfSteps => exact absurd hc h

/-- Witness for C7: a 1000 ms window polled through two sub-timeouts finishes
exactly at the deadline with cleanup issued, and an exceptional iteration
also reaches cleanup. -/
theorem c7_collect_duration_and_cleanup_witness :
    ((0 : ℤ) + 1000 ≤ 1000 ∧
      "Network.disable" ∈ collectCmds 0 1000 [PollStep.timedOut, PollStep.timedOut]) ∧
    "Network.disable" ∈ collectCmds 0 1000 [PollStep.errored] := by
  refine ⟨⟨?_, ?_⟩, ?_⟩
  · exact c7_collect_duration_and_cleanup.1 0 1000
      [PollStep.timedOut, PollStep.timedOut] [] 1000 (by decide)
  · exact c7_collect_duration_and_cleanup.2 0 1000
      [PollStep.timedOut, PollStep.timedOut] (by decide)
  · exact c7_collect_duration_and_cleanup.2 0 1000 [PollStep.errored] (by decide)

/-! ## C8 -/

/-- Assigning key `k` makes the map send `k` to the assigned entry. -/
theorem lookup_dictAssign_self (k : String) (v : NetEntry) :
    ∀ m : List (String × NetEntry), (dictAssign m k v).lookup k = some v := by
  have hover : ∀ m : List (String × NetEntry), (m.lookup k).isSome →
      (m.map (fun kv => if kv.1 = k then (k, v) else kv)).lookup k = some v := by
    intro m
    induction m with
    | nil => intro h; simp at h
    | cons p rest ih =>
        obtain ⟨pk, pv⟩ := p
        intro h
        by_cases hk : k = pk
        · subst hk
          simp only [List.map_cons, if_pos rfl]
          simp
        · have hb : (k == pk) = false := beq_eq_false_iff_ne.mpr hk
          rw [List.lookup_cons, hb] at h
          simp only [List.map_cons]
          rw [if_neg (fun hc => hk hc.symm)]
          rw [List.lookup_cons, hb]
          exact ih h
  intro m
  unfold dictAssign
  by_cases h : (m.lookup k).isSome
  · rw [if_pos h]
    exact hover m h
  · rw [if_neg h]
    rw [List.lookup_append]
    simp only [Option.not_isSome_iff_eq_none] at h
    rw [h]
    simp

/-- Assigning key `k` leaves every other key's entry unchanged. -/
theorem lookup_dictAssign_ne (k j : String) (v : NetEntry) (hne : j ≠ k) :
    ∀ m : List (String × NetEntry), (dictAssign m k v).lookup j = m.lookup j := by
  have hover : ∀ m : List (String × NetEntry),
      (m.map (fun kv => if kv.1 = k then (k, v) else kv)).lookup j = m.lookup j := by
    intro m
    induction m with
    | nil => rfl
    | cons p rest ih =>
        obtain ⟨pk, pv⟩ := p
        by_cases hk : pk = k
        · subst hk
          have hl : List.map (fun kv : String × NetEntry =>
                if kv.1 = pk then (pk, v) else kv) ((pk, pv) :: rest)
              = (pk, v) :: List.map (fun kv : String × NetEntry =>
                if kv.1 = pk then (pk, v) else kv) rest := by
            rw [List.map_cons]
            congr 1
            simp
          rw [hl]
          have hb : (j == pk) = false := beq_eq_false_iff_ne.mpr hne
          rw [List.lookup_cons, List.lookup_cons, hb]
          exact ih
        · have hhead : (fun kv : String × NetEntry =>
              if kv.1 = k then (k, v) else kv) (pk, pv) = (pk, pv) := by simp [hk]
          simp only [List.map_cons, hhead]
          rw [List.lookup_cons, List.lookup_cons]
          cases j == pk
          · exact ih
          · rfl
  intro m
  unfold dictAssign
  by_cases h : (m.lookup k).isSome
  · rw [if_pos h]
    exact hover m
  · rw [if_neg h]
    rw [List.lookup_append]
    have : List.lookup j [(k, v)] = none := by
      rw [List.lookup_cons, beq_eq_false_iff_ne.mpr hne]
      rfl
    rw [this]
    simp

/-- Key-preserving overwrites keep the key sequence of the map. -/
theorem dictAssign_keys (k : String) (v : NetEntry) :
    ∀ m : List (String × NetEntry),
      (dictAssign m k v).map Prod.fst
        = if (m.lookup k).isSome then m.map Prod.fst
          else m.map Prod.fst ++ [k] := by
  have hover : ∀ m : List (String × NetEntry),
      (m.map (fun kv => if kv.1 = k then (k, v) else kv)).map Prod.fst
        = m.map Prod.fst := by
    intro m
    rw [List.map_map]
    apply List.map_congr_left
    intro kv _
    by_cases h : kv.1 = k
    · simp [h]
    · simp [h]
  intro m
  unfold dictAssign
  by_cases h : (m.lookup k).isSome
  · rw [if_pos h, if_pos h]
    exact hover m
  · rw [if_neg h, if_neg h]
    simp

/-- Attaching a response keeps the key sequence of the map. -/
theorem dictAttachResponse_keys (k : String) (r : RespInfo)
    (m : List (String × NetEntry)) :
    (dictAttachResponse m k r).map Prod.fst = m.map Prod.fst := by
  unfold dictAttachResponse
  rw [List.map_map]
  apply List.map_congr_left
  intro kv _
  by_cases h : kv.1 = k
  · simp [h]
  · simp [h]

/-- Attaching a response to a present key updates exactly the `response`
field of its (first) entry. -/
theorem lookup_dictAttachResponse_self (k : String) (r : RespInfo) :
    ∀ (m : List (String × NetEntry)) (ent : NetEntry),
      m.lookup k = some ent →
      (dictAttachResponse m k r).lookup k
        = some { ent with response := some r } := by
  intro m
  induction m with
  | nil => intro ent h; simp at h
  | cons p rest ih =>
      obtain ⟨pk, pv⟩ := p
      intro ent h
      by_cases hk : k = pk
      · subst hk
        rw [List.lookup_cons_self] at h
        injection h with h
        subst h
        simp only [dictAttachResponse, List.map_cons, if_pos rfl]
        simp
      · have hb : (k == pk) = false := beq_eq_false_iff_ne.mpr hk
        rw [List.lookup_cons, hb] at h
        simp only [dictAttachResponse, List.map_cons]
        rw [if_neg (fun hc => hk hc.symm)]
        rw [List.lookup_cons, hb]
        exact ih ent h

/-- Attaching a response to key `k` leaves every other key unchanged. -/
theorem lookup_dictAttachResponse_ne (k j : String) (r : RespInfo)
    (hne : j ≠ k) :
    ∀ m : List (String × NetEntry),
      (dictAttachResponse m k r).lookup j = m.lookup j := by
  intro m
  induction m with
  | nil => rfl
  | cons p rest ih =>
      obtain ⟨pk, pv⟩ := p
      by_cases hk : pk = k
      · subst hk
        have hl : dictAttachResponse ((pk, pv) :: rest) pk r
            = (pk, { pv with response := some r }) :: dictAttachResponse rest pk r := by
          simp only [dictAttachResponse, List.map_cons]
          congr 1
        rw [hl]
        have hb : (j == pk) = false := beq_eq_false_iff_ne.mpr hne
        rw [List.lookup_cons, List.lookup_cons, hb]
        exact ih
      · have hhead : (fun kv : String × NetEntry =>
            if kv.1 = k then (kv.1, { kv.2 with response := some r }) else kv)
              (pk, pv) = (pk, pv) := by simp [hk]
        simp only [dictAttachResponse, List.map_cons, hhead]
        rw [List.lookup_cons, List.lookup_cons]
        cases j == pk
        · exact ih
        · rfl

/-- Lookup succeeds exactly on the keys present in the map. -/
theorem lookup_isSome_iff_mem_keys (m : List (String × NetEntry)) (k : String) :
    (m.lookup k).isSome ↔ k ∈ m.map Prod.fst := by
  rw [List.lookup_isSome_iff]
  constructor
  · rintro ⟨p, hp, he⟩
    have hk : k = p.1 := by simpa using he
    rw [hk]
    exact List.mem_map.mpr ⟨p, hp, rfl⟩
  · intro hk
    obtain ⟨p, hp, he⟩ := List.mem_map.mp hk
    exact ⟨p, hp, by simp [he]⟩

/-- First-occurrence deduplication only depends on the membership of the
seen set. -/
theorem firstSightsAux_congr :
    ∀ (l : List String) (s1 s2 : List String),
      (∀ x, x ∈ s1 ↔ x ∈ s2) →
      firstSightsAux s1 l = firstSightsAux s2 l := by
  intro l
  induction l with
  | nil => intro s1 s2 _; rfl
  | cons x xs ih =>
      intro s1 s2 h
      unfold firstSightsAux
      by_cases hx : x ∈ s1
      · rw [if_pos hx, if_pos ((h x).mp hx)]
        exact ih s1 s2 h
      · rw [if_neg hx, if_neg (fun hc => hx ((h x).mpr hc))]
        rw [ih (x :: s1) (x :: s2) (by intro y; simp [h y])]

/-- Unfolding equation of `firstSightsAux` on a cons cell. -/
theorem firstSightsAux_cons (seen : List String) (x : String) (xs : List String) :
    firstSightsAux seen (x :: xs)
      = if x ∈ seen then firstSightsAux seen xs
        else x :: firstSightsAux (x :: seen) xs := rfl

/-- The key order of the aggregation map extends the initial keys by the
first sightings of request-sent ids, in arrival order. -/
theorem netRun_keys_aux :
    ∀ (events : List NetEvent) (m : List (String × NetEntry)),
      (events.foldl netStep m).map Prod.fst
        = m.map Prod.fst ++ firstSightsAux (m.map Prod.fst) (reqIds events) := by
  intro events
  induction events with
  | nil => intro m; simp [firstSightsAux, reqIds]
  | cons e rest ih =>
      intro m
      cases e with
      | requestWillBeSent p =>
          have hred : reqIds (NetEvent.requestWillBeSent p :: rest)
              = p.requestId :: reqIds rest := rfl
          have hfold : (NetEvent.requestWillBeSent p :: rest).foldl netStep m
              = rest.foldl netStep (netStep m (NetEvent.requestWillBeSent p)) := rfl
          rw [hred, hfold, ih, firstSightsAux_cons]
          by_cases h : (m.lookup p.requestId).isSome
          · have hmem : p.requestId ∈ m.map Prod.fst :=
              (lookup_isSome_iff_mem_keys m p.requestId).mp h
            have hkeys : (netStep m (NetEvent.requestWillBeSent p)).map Prod.fst
                = m.map Prod.fst := by
              simp only [netStep]
              rw [dictAssign_keys, if_pos h]
            rw [if_pos hmem, hkeys]
          · have hmem : p.requestId ∉ m.map Prod.fst :=
              fun hc => h ((lookup_isSome_iff_mem_keys m p.requestId).mpr hc)
            have hkeys : (netStep m (NetEvent.requestWillBeSent p)).map Prod.fst
                = m.map Prod.fst ++ [p.requestId] := by
              simp only [netStep]
              rw [dictAssign_keys, if_neg h]
            rw [if_neg hmem, hkeys]
            rw [firstSightsAux_congr (reqIds rest)
              (m.map Prod.fst ++ [p.requestId]) (p.requestId :: m.map Prod.fst)
              (by intro y; simp [or_comm])]
            simp
      | responseReceived p =>
          have hred : reqIds (NetEvent.responseReceived p :: rest)
              = reqIds rest := rfl
          have hfold : (NetEvent.responseReceived p :: rest).foldl netStep m
              = rest.foldl netStep (netStep m (NetEvent.responseReceived p)) := rfl
          have hkeys : (netStep m (NetEvent.responseReceived p)).map Prod.fst
              = m.map Prod.fst := by
            simp only [netStep]
            by_cases h : (m.lookup p.requestId).isSome
            · rw [if_pos h]
              exact dictAttachResponse_keys p.requestId p.response m
            · rw [if_neg h]
          rw [hred, hfold, ih, hkeys]
      | other mth =>
          have hred : reqIds (NetEvent.other mth :: rest) = reqIds rest := rfl
          have hfold : (NetEvent.other mth :: rest).foldl netStep m
              = rest.foldl netStep m := rfl
          rw [hred, hfold, ih]

/-- When no response-received event for `rid` occurs, the aggregation
preserves "the entry for `rid` has a null response". -/
theorem netRun_no_response :
    ∀ (events : List NetEvent) (rid : String) (m : List (String × NetEntry)),
      hasResponseFor events rid = false →
      (∀ ent, m.lookup rid = some ent → ent.response = none) →
      ∀ ent, (events.foldl netStep m).lookup rid = some ent →
        ent.response = none := by
  intro events
  induction events with
  | nil => intro rid m _ hm ent h; exact hm ent h
  | cons e rest ih =>
      intro rid m hr hm ent
      have hsplit : hasResponseFor [e] rid = false ∧ hasResponseFor rest rid = false := by
        unfold hasResponseFor at hr ⊢
        rw [List.any_cons] at hr
        rcases Bool.or_eq_false_iff.mp hr with ⟨h1, h2⟩
        constructor
        · rw [List.any_cons, h1]
          rfl
        · exact h2
      apply ih rid (netStep m e) hsplit.2
      intro ent' h'
      cases e with
      | requestWillBeSent p =>
          by_cases hrid : p.requestId = rid
          · subst hrid
            simp only [netStep] at h'
            rw [lookup_dictAssign_self p.requestId (mkEntry p) m] at h'
            injection h' with h'
            subst h'
            rfl
          · simp only [netStep] at h'
            rw [lookup_dictAssign_ne p.requestId rid (mkEntry p)
              (fun hc => hrid hc.symm) m] at h'
            exact hm ent' h'
      | responseReceived p =>
          have hne : p.requestId ≠ rid := by
            have h1 := hsplit.1
            unfold hasResponseFor at h1
            rw [List.any_cons] at h1
            rcases Bool.or_eq_false_iff.mp h1 with ⟨h2, _⟩
            simpa using h2
          simp only [netStep] at h'
          by_cases hl : (m.lookup p.requestId).isSome
          · rw [if_pos hl] at h'
            rw [lookup_dictAttachResponse_ne p.requestId rid p.response
              (fun hc => hne hc.symm) m] at h'
            exact hm ent' h'
          · rw [if_neg hl] at h'
            exact hm ent' h'
      | other mth =>
          simp only [netStep] at h'
          exact hm ent' h'

/-- C8: during aggregation a request-sent event creates or overwrites the map
entry for its request id (fresh entries carry `response = None`, and other
keys are untouched); a response-received event attaches exactly the modelled
`{status, statusText, headers, mimeType}` record to an existing entry and is
ignored when the id is unknown; the key order of the resulting map is the
arrival order of each id's first sighting; and an id that never received a
response ends with `response = None`. -/
theorem c8_network_aggregation :
    (∀ (m : List (String × NetEntry)) (p : ReqParams),
        (netStep m (NetEvent.requestWillBeSent p)).lookup p.requestId
          = some (mkEntry p) ∧
        (mkEntry p).response = none) ∧
    (∀ (m : List (String × NetEntry)) (p : ReqParams) (j : String),
        j ≠ p.requestId →
        (netStep m (NetEvent.requestWillBeSent p)).lookup j = m.lookup j) ∧
    (∀ (m : List (String × NetEntry)) (p : RespParams) (ent : NetEntry),
        m.lookup p.requestId = some ent →
        (netStep m (NetEvent.responseReceived p)).lookup p.requestId
          = some { ent with response := some p.response }) ∧
    (∀ (m : List (String × NetEntry)) (p : RespParams),
        m.lookup p.requestId = none →
        netStep m (NetEvent.responseReceived p) = m) ∧
    (∀ (m : List (String × NetEntry)) (p : RespParams) (j : String),
        j ≠ p.requestId →
        (netStep m (NetEvent.responseReceived p)).lookup j = m.lookup j) ∧
    (∀ events : List NetEvent,
        (netRun events).map Prod.fst = firstSightsAux [] (reqIds events)) ∧
    (∀ (events : List NetEvent) (rid : String) (ent : NetEntry),
        hasResponseFor events rid = false →
        (netRun events).lookup rid = some ent →
        ent.response = none) := by
  refine ⟨?_, ?_, ?_, ?_, ?_, ?_, ?_⟩
  · intro m p
    exact ⟨lookup_dictAssign_self p.requestId (mkEntry p) m, rfl⟩
  · intro m p j hne
    exact lookup_dictAssign_ne p.requestId j (mkEntry p) hne m
  · intro m p ent h
    simp only [netStep]
    rw [if_pos (by rw [h]; rfl)]
    exact lookup_dictAttachResponse_self p.requestId p.response m ent h
  · intro m p h
    simp only [netStep]
    rw [if_neg (by rw [h]; simp)]
  · intro m p j hne
    simp only [netStep]
    by_cases h : (m.lookup p.requestId).isSome
    · rw [if_pos h]
      exact lookup_dictAttachResponse_ne p.requestId j p.response hne m
    · rw [if_neg h]
  · intro events
    have h := netRun_keys_aux events []
    simpa [netRun] using h
  · intro events rid ent hr h
    exact netRun_no_response events rid [] hr (by intro ent' h'; simp at h') ent h

/-- Witness for C8 on a concrete trace: one request, its response, and a
response for an unknown id. -/
theorem c8_network_aggregation_witness :
    (netStep [] (NetEvent.requestWillBeSent
        (ReqParams.mk "r1" (ReqInfo.mk "u1" "GET" [] "") "Script" "script"))).lookup "r1"
      = some (mkEntry
          (ReqParams.mk "r1" (ReqInfo.mk "u1" "GET" [] "") "Script" "script")) ∧
    (netStep [("r1", mkEntry
        (ReqParams.mk "r1" (ReqInfo.mk "u1" "GET" [] "") "Script" "script"))]
        (NetEvent.responseReceived
          (RespParams.mk "r1" (RespInfo.mk 200 "OK" [] "text/html")))).lookup "r1"
      = some { mkEntry
          (ReqParams.mk "r1" (ReqInfo.mk "u1" "GET" [] "") "Script" "script")
          with response := some (RespInfo.mk 200 "OK" [] "text/html") } ∧
    netStep [("r1", mkEntry
        (ReqParams.mk "r1" (ReqInfo.mk "u1" "GET" [] "") "Script" "script"))]
        (NetEvent.responseReceived
          (RespParams.mk "r9" (RespInfo.mk 200 "OK" [] "text/html")))
      = [("r1", mkEntry
          (ReqParams.mk "r1" (ReqInfo.mk "u1" "GET" [] "") "Script" "script"))] ∧
    (netRun [NetEvent.requestWillBeSent
        (ReqParams.mk "r1" (ReqInfo.mk "u1" "GET" [] "") "Script" "script"),
        NetEvent.other "Page.loadEventFired",
        NetEvent.requestWillBeSent
          (ReqParams.mk "r2" (ReqInfo.mk "u2" "GET" [] "") "Script" "script"),
        NetEvent.requestWillBeSent
          (ReqParams.mk "r1" (ReqInfo.mk "u1b" "GET" [] "") "Script" "script")]).map
        Prod.fst
      = ["r1", "r2"] := by
  refine ⟨?_, ?_, ?_, ?_⟩
  · exact (c8_network_aggregation.1 []
      (ReqParams.mk "r1" (ReqInfo.mk "u1" "GET" [] "") "Script" "script")).1
  · exact c8_network_aggregation.2.2.1 _
      (RespParams.mk "r1" (RespInfo.mk 200 "OK" [] "text/html")) _ (by decide)
  · exact c8_network_aggregation.2.2.2.1 _
      (RespParams.mk "r9" (RespInfo.mk 200 "OK" [] "text/html")) (by decide)
  · rw [c8_network_aggregation.2.2.2.2.2.1]
    decide

/-! ## C5 -/

/-- Field effects of the archive branch: it appends the `(url, hash)` pair to
the index, appends one record carrying exactly that url and hash, bumps
`new_files` and leaves `skipped` alone. -/
theorem addScript_fields (hashFn : List Nat → String)
    (download : String → Option (List Nat)) (domain dir : String)
    (st : CapState) (s : Script) (c : List Nat) :
    (addScript hashFn download domain dir st s c).index
        = st.index ++ [(s.src, hashFn c)] ∧
    (addScript hashFn download domain dir st s c).newFiles = st.newFiles + 1 ∧
    (addScript hashFn download domain dir st s c).skipped = st.skipped ∧
    ∃ rec, (addScript hashFn download domain dir st s c).records
        = st.records ++ [rec] ∧ rec.url = s.src ∧ rec.hash = hashFn c := by
  refine ⟨rfl, rfl, rfl, ⟨_, rfl, rfl, rfl⟩⟩

/-- Skip branch: an already-indexed `(url, hash)` pair with `force_refresh`
unset increments only the `skipped` counter. -/
theorem processScript_skip (hashFn : List Nat → String)
    (download : String → Option (List Nat)) (domain dir : String)
    (st : CapState) (s : Script) (c : List Nat)
    (hsrc : s.src ≠ "") (hdl : download s.src = some c) (hc : c ≠ [])
    (hmem : hashExists s.src (hashFn c) st.index) :
    processScript hashFn download false domain dir st s
      = { st with skipped := st.skipped + 1 } := by
  unfold processScript
  rw [if_neg hsrc, hdl]
  simp only []
  rw [if_neg hc, if_pos (And.intro (by simp) hmem)]

/-- No-op branches: empty src, failed download, or a zero-byte download leave
the state untouched. -/
theorem processScript_noop (hashFn : List Nat → String)
    (download : String → Option (List Nat)) (force : Bool)
    (domain dir : String) (st : CapState) (s : Script)
    (h : s.src = "" ∨ download s.src = none ∨ download s.src = some []) :
    processScript hashFn download force domain dir st s = st := by
  unfold processScript
  rcases h with h | h | h
  · rw [if_pos h]
  · by_cases hsrc : s.src = ""
    · rw [if_pos hsrc]
    · rw [if_neg hsrc, h]
  · by_cases hsrc : s.src = ""
    · rw [if_pos hsrc]
    · rw [if_neg hsrc, h]
      simp

/-- Archive branch selection. -/
theorem processScript_add (hashFn : List Nat → String)
    (download : String → Option (List Nat)) (force : Bool)
    (domain dir : String) (st : CapState) (s : Script) (c : List Nat)
    (hsrc : s.src ≠ "") (hdl : download s.src = some c) (hc : c ≠ [])
    (hnew : ¬(force = false ∧ hashExists s.src (hashFn c) st.index)) :
    processScript hashFn download force domain dir st s
      = addScript hashFn download domain dir st s c := by
  unfold processScript
  rw [if_neg hsrc, hdl]
  simp only []
  rw [if_neg hc, if_neg hnew]

/-- Exhaustive case analysis of one download task. -/
theorem processScript_cases (hashFn : List Nat → String)
    (download : String → Option (List Nat)) (force : Bool)
    (domain dir : String) (st : CapState) (s : Script) :
    processScript hashFn download force domain dir st s = st ∨
    (∃ c, download s.src = some c ∧ c ≠ [] ∧ s.src ≠ "" ∧
      ((force = false ∧ hashExists s.src (hashFn c) st.index ∧
          processScript hashFn download force domain dir st s
            = { st with skipped := st.skipped + 1 }) ∨
       (¬(force = false ∧ hashExists s.src (hashFn c) st.index) ∧
          processScript hashFn download force domain dir st s
            = addScript hashFn download domain dir st s c))) := by
  by_cases hsrc : s.src = ""
  · exact Or.inl (processScript_noop hashFn download force domain dir st s
      (Or.inl hsrc))
  cases hdl : download s.src with
  | none =>
      exact Or.inl (processScript_noop hashFn download force domain dir st s
        (Or.inr (Or.inl hdl)))
  | some c =>
      by_cases hc : c = []
      · subst hc
        exact Or.inl (processScript_noop hashFn download force domain dir st s
          (Or.inr (Or.inr hdl)))
      · right
        refine ⟨c, rfl, hc, hsrc, ?_⟩
        by_cases hskip : force = false ∧ hashExists s.src (hashFn c) st.index
        · left
          refine ⟨hskip.1, hskip.2, ?_⟩
          obtain ⟨hf, hmem⟩ := hskip
          subst hf
          exact processScript_skip hashFn download domain dir st s c hsrc hdl hc hmem
        · exact Or.inr ⟨hskip,
            processScript_add hashFn download force domain dir st s c hsrc hdl hc hskip⟩

/-- One task only ever extends the index at the end. -/
theorem processScript_index_mono (hashFn : List Nat → String)
    (download : String → Option (List Nat)) (force : Bool)
    (domain dir : String) (st : CapState) (s : Script) :
    ∃ l, (processScript hashFn download force domain dir st s).index
        = st.index ++ l := by
  rcases processScript_cases hashFn download force domain dir st s with
    h | ⟨c, _, _, _, hcase | hcase⟩
  · exact ⟨[], by rw [h]; simp⟩
  · exact ⟨[], by rw [hcase.2.2]; simp⟩
  · exact ⟨[(s.src, hashFn c)], by
      rw [hcase.2]
      exact (addScript_fields hashFn download domain dir st s c).1⟩

/-- A whole capture run only ever extends the index at the end. -/
theorem captureScripts_index_mono (hashFn : List Nat → String)
    (download : String → Option (List Nat)) (force : Bool)
    (domain dir : String) :
    ∀ (scripts : List Script) (st : CapState),
      ∃ l, (captureScripts hashFn download force domain dir st scripts).index
          = st.index ++ l := by
  intro scripts
  induction scripts with
  | nil => intro st; exact ⟨[], by simp [captureScripts]⟩
  | cons a rest ih =>
      intro st
      obtain ⟨l1, h1⟩ := processScript_index_mono hashFn download force domain dir st a
      obtain ⟨l2, h2⟩ := ih (processScript hashFn download force domain dir st a)
      refine ⟨l1 ++ l2, ?_⟩
      have hfold : captureScripts hashFn download force domain dir st (a :: rest)
          = captureScripts hashFn download force domain dir
              (processScript hashFn download force domain dir st a) rest := rfl
      rw [hfold, h2, h1, List.append_assoc]

/-- After a task on a successfully downloaded script, its `(url, hash)` pair
is recorded. -/
theorem processScript_pair_mem (hashFn : List Nat → String)
    (download : String → Option (List Nat)) (force : Bool)
    (domain dir : String) (st : CapState) (s : Script) (c : List Nat)
    (hsrc : s.src ≠ "") (hdl : download s.src = some c) (hc : c ≠ []) :
    (s.src, hashFn c) ∈ (processScript hashFn download force domain dir st s).index := by
  by_cases hskip : force = false ∧ hashExists s.src (hashFn c) st.index
  · obtain ⟨hf, hmem⟩ := hskip
    subst hf
    rw [processScript_skip hashFn download domain dir st s c hsrc hdl hc hmem]
    exact hmem
  · rw [processScript_add hashFn download force domain dir st s c hsrc hdl hc hskip]
    rw [(addScript_fields hashFn download domain dir st s c).1]
    exact List.mem_append_right _ (by simp)

/-- After a capture run every successfully downloaded script's `(url, hash)`
pair is recorded in the index. -/
theorem captureScripts_establishes (hashFn : List Nat → String)
    (download : String → Option (List Nat)) (force : Bool)
    (domain dir : String) :
    ∀ (scripts : List Script) (st : CapState) (s : Script) (c : List Nat),
      s ∈ scripts → s.src ≠ "" → download s.src = some c → c ≠ [] →
      (s.src, hashFn c)
        ∈ (captureScripts hashFn download force domain dir st scripts).index := by
  intro scripts
  induction scripts with
  | nil => intro st s c hmem; simp at hmem
  | cons a rest ih =>
      intro st s c hmem hsrc hdl hc
      have hfold : captureScripts hashFn download force domain dir st (a :: rest)
          = captureScripts hashFn download force domain dir
              (processScript hashFn download force domain dir st a) rest := rfl
      rw [hfold]
      rcases List.mem_cons.mp hmem with heq | hmem'
      · subst heq
        have h1 := processScript_pair_mem hashFn download force domain dir st s c
          hsrc hdl hc
        obtain ⟨l, hl⟩ := captureScripts_index_mono hashFn download force domain dir
          rest (processScript hashFn download force domain dir st s)
        rw [hl]
        exact List.mem_append_left _ h1
      · exact ih _ s c hmem' hsrc hdl hc

/-- A capture run in which every script's pair is already indexed only counts
skips. -/
theorem captureScripts_all_skip (hashFn : List Nat → String)
    (download : String → Option (List Nat)) (domain dir : String) :
    ∀ (scripts : List Script) (st : CapState),
      (∀ s ∈ scripts, ∃ c, s.src ≠ "" ∧ download s.src = some c ∧ c ≠ [] ∧
          hashExists s.src (hashFn c) st.index) →
      captureScripts hashFn download false domain dir st scripts
        = { st with skipped := st.skipped + scripts.length } := by
  intro scripts
  induction scripts with
  | nil => intro st _; simp [captureScripts]
  | cons a rest ih =>
      intro st h
      obtain ⟨c, hsrc, hdl, hc, hmem⟩ := h a (List.mem_cons_self a rest)
      have hfold : captureScripts hashFn download false domain dir st (a :: rest)
          = captureScripts hashFn download false domain dir
              (processScript hashFn download false domain dir st a) rest := rfl
      rw [hfold, processScript_skip hashFn download domain dir st a c hsrc hdl hc hmem]
      have hrest : ∀ s ∈ rest, ∃ c, s.src ≠ "" ∧ download s.src = some c ∧ c ≠ [] ∧
          hashExists s.src (hashFn c) ({ st with skipped := st.skipped + 1 } : CapState).index := by
        intro s hs
        exact h s (List.mem_cons_of_mem a hs)
      rw [ih { st with skipped := st.skipped + 1 } hrest]
      have harith : st.skipped + 1 + rest.length = st.skipped + (a :: rest).length := by
        simp
        omega
      show ({ st with skipped := st.skipped + 1 + rest.length } : CapState)
        = { st with skipped := st.skipped + (a :: rest).length }
      rw [harith]

/-- Records created by a `force_refresh = false` run: each new record's
`(url, hash)` pair was absent from the starting index, and the new pairs are
pairwise distinct — a record is created at most once per distinct pair. -/
theorem captureScripts_new_records (hashFn : List Nat → String)
    (download : String → Option (List Nat)) (domain dir : String) :
    ∀ (scripts : List Script) (st : CapState),
      ∃ newRecs,
        (captureScripts hashFn download false domain dir st scripts).records
          = st.records ++ newRecs ∧
        (newRecs.map (fun r => (r.url, r.hash))).Nodup ∧
        ∀ r ∈ newRecs, (r.url, r.hash) ∉ st.index := by
  intro scripts
  induction scripts with
  | nil =>
      intro st
      exact ⟨[], by simp [captureScripts], by simp, by simp⟩
  | cons a rest ih =>
      intro st
      have hfold : captureScripts hashFn download false domain dir st (a :: rest)
          = captureScripts hashFn download false domain dir
              (processScript hashFn download false domain dir st a) rest := rfl
      rcases processScript_cases hashFn download false domain dir st a with
        h | ⟨c, hdl, hc, hsrc, hcase | hcase⟩
      · rw [hfold, h]
        exact ih st
      · obtain ⟨nr, h1, h2, h3⟩ := ih { st with skipped := st.skipped + 1 }
        rw [hfold, hcase.2.2]
        exact ⟨nr, h1, h2, h3⟩
      · obtain ⟨hidx, _, _, rec, hrec, hu, hh⟩ :=
          addScript_fields hashFn download domain dir st a c
        obtain ⟨nr, h1, h2, h3⟩ := ih (addScript hashFn download domain dir st a c)
        rw [hfold, hcase.2]
        refine ⟨rec :: nr, ?_, ?_, ?_⟩
        · rw [h1, hrec, List.append_assoc]
          rfl
        · simp only [List.map_cons, List.nodup_cons]
          constructor
          · intro hmemp
            obtain ⟨r, hr, hpr⟩ := List.mem_map.mp hmemp
            apply h3 r hr
            rw [hpr, hu, hh, hidx]
            exact List.mem_append_right _ (by simp)
          · exact h2
        · intro r hr
          rcases List.mem_cons.mp hr with heq | hr'
          · subst heq
            rw [hu, hh]
            exact fun hm => hcase.1 ⟨rfl, hm⟩
          · intro hm
            exact h3 r hr' (hidx ▸ List.mem_append_left _ hm)

/-- C5: with `force_refresh` unset and the `(url, hash)` pair already
recorded, a download task increments only the `skipped` counter (writing no
file, no source map, no record); capturing an unchanged page a second time
with `force_refresh = false` yields `new_files = 0` and `skipped = N` where
`N` is the script count; and within a `force_refresh = false` run a file
record is created at most once per distinct `(url, hash)` pair, never for a
pair already in the index. -/
theorem c5_capture_idempotence :
    (∀ (hashFn : List Nat → String) (download : String → Option (List Nat))
        (domain dir : String) (st : CapState) (s : Script) (c : List Nat),
        s.src ≠ "" → download s.src = some c → c ≠ [] →
        hashExists s.src (hashFn c) st.index →
        processScript hashFn download false domain dir st s
          = { st with skipped := st.skipped + 1 }) ∧
    (∀ (hashFn : List Nat → String) (download : String → Option (List Nat))
        (domain dir : String) (idx0 : List (String × String))
        (scripts : List Script),
        (∀ s ∈ scripts, s.src ≠ "" ∧ ∃ c, download s.src = some c ∧ c ≠ []) →
        (captureScripts hashFn download false domain dir
            (initCapState (captureScripts hashFn download false domain dir
              (initCapState idx0) scripts).index) scripts).newFiles = 0 ∧
        (captureScripts hashFn download false domain dir
            (initCapState (captureScripts hashFn download false domain dir
              (initCapState idx0) scripts).index) scripts).skipped
          = scripts.length) ∧
    (∀ (hashFn : List Nat → String) (download : String → Option (List Nat))
        (domain dir : String) (scripts : List Script) (st : CapState),
        ∃ newRecs,
          (captureScripts hashFn download false domain dir st scripts).records
            = st.records ++ newRecs ∧
          (newRecs.map (fun r => (r.url, r.hash))).Nodup ∧
          ∀ r ∈ newRecs, (r.url, r.hash) ∉ st.index) := by
  refine ⟨?_, ?_, ?_⟩
  · intro hashFn download domain dir st s c hsrc hdl hc hmem
    exact processScript_skip hashFn download domain dir st s c hsrc hdl hc hmem
  · intro hashFn download domain dir idx0 scripts h
    have hall : ∀ s ∈ scripts, ∃ c, s.src ≠ "" ∧ download s.src = some c ∧ c ≠ [] ∧
        hashExists s.src (hashFn c)
          (initCapState (captureScripts hashFn download false domain dir
            (initCapState idx0) scripts).index).index := by
      intro s hs
      obtain ⟨hsrc, c, hdl, hc⟩ := h s hs
      exact ⟨c, hsrc, hdl, hc,
        captureScripts_establishes hashFn download false domain dir scripts
          (initCapState idx0) s c hs hsrc hdl hc⟩
    rw [captureScripts_all_skip hashFn download domain dir scripts _ hall]
    constructor
    · rfl
    · show (initCapState _).skipped + scripts.length = scripts.length
      simp [initCapState]
  · intro hashFn download domain dir scripts st
    exact captureScripts_new_records hashFn download domain dir scripts st

/-- Witness for C5: one script downloaded twice over a persistent index — the
second run creates nothing and skips once; and the skip branch at a concrete
already-indexed pair. -/
theorem c5_capture_idempotence_witness :
    ((captureScripts (fun _ => "H")
        (fun u => if u = "https://a.com/x.js" then some [7] else none) false
        "a.com" "S"
        (initCapState (captureScripts (fun _ => "H")
          (fun u => if u = "https://a.com/x.js" then some [7] else none) false
          "a.com" "S" (initCapState []) [{ src := "https://a.com/x.js" }]).index)
        [{ src := "https://a.com/x.js" }]).newFiles = 0 ∧
      (captureScripts (fun _ => "H")
        (fun u => if u = "https://a.com/x.js" then some [7] else none) false
        "a.com" "S"
        (initCapState (captureScripts (fun _ => "H")
          (fun u => if u = "https://a.com/x.js" then some [7] else none) false
          "a.com" "S" (initCapState []) [{ src := "https://a.com/x.js" }]).index)
        [{ src := "https://a.com/x.js" }]).skipped = 1) ∧
    processScript (fun _ => "H")
        (fun u => if u = "https://a.com/x.js" then some [7] else none) false
        "a.com" "S"
        (initCapState [("https://a.com/x.js", "H")])
        { src := "https://a.com/x.js" }
      = { initCapState [("https://a.com/x.js", "H")] with skipped := 1 } := by
  constructor
  · exact c5_capture_idempotence.2.1 (fun _ => "H")
      (fun u => if u = "https://a.com/x.js" then some [7] else none)
      "a.com" "S" [] [{ src := "https://a.com/x.js" }]
      (by intro s hs
          simp only [List.mem_singleton] at hs
          subst hs
          exact ⟨by decide, [7], by decide, by decide⟩)
  · exact c5_capture_idempotence.1 (fun _ => "H")
      (fun u => if u = "https://a.com/x.js" then some [7] else none)
      "a.com" "S" (initCapState [("https://a.com/x.js", "H")])
      { src := "https://a.com/x.js" } [7]
      (by decide) (by decide) (by decide) (by decide)

/-! ## C6 -/

/-- Counterexample to C6 as frozen: a capture that got past connection, with
one new file queued for parsing, neither returns a stats object nor raises a
connectivity error when the parse/embed/index chain raises — the exception
(e.g. the worker failing to start) propagates out of `capture_page` as a
non-connectivity error. -/
theorem c6_capture_error_counterexample :
    capturePageAfterConnect (fun _ => "H")
        (fun u => if u = "https://a.com/x.js" then some [7] else none) false
        "a.com" "S" [] [{ src := "https://a.com/x.js" }]
        (ParseChainOutcome.exc "node worker failed to start")
      = Except.error (CaptureError.parseChain "node worker failed to start") ∧
    (CaptureError.parseChain "node worker failed to start").isConnectivity
      = false := by
  constructor
  · rfl
  · rfl

/-- C6 (amended): for every capture invocation that gets past connection,
per-file download failures are absorbed — in particular a zero-byte download
changes no state at all — and the call returns a stats object whenever the
parse chain does not raise; a parse failure that the worker reports as an
error-status reply is absorbed and yields `chunks_indexed = 0`; but an
exception raised inside the external parsing/embedding/indexing chain
propagates out of the capture call as a non-connectivity error whenever any
file was queued for parsing. -/
theorem c6_capture_error_containment :
    (∀ (hashFn : List Nat → String) (download : String → Option (List Nat))
        (force : Bool) (domain dir : String) (idx : List (String × String))
        (scripts : List Script) (pout : ParseChainOutcome),
        (∀ m, pout ≠ ParseChainOutcome.exc m) →
        ∃ stats, capturePageAfterConnect hashFn download force domain dir idx
            scripts pout = Except.ok stats) ∧
    (∀ (hashFn : List Nat → String) (download : String → Option (List Nat))
        (force : Bool) (domain dir : String) (idx : List (String × String))
        (scripts : List Script) (msg : String),
        ∃ stats, capturePageAfterConnect hashFn download force domain dir idx
            scripts (ParseChainOutcome.respError msg) = Except.ok stats ∧
          stats.chunksIndexed = 0) ∧
    (∀ (hashFn : List Nat → String) (download : String → Option (List Nat))
        (force : Bool) (domain dir : String) (st : CapState) (s : Script),
        download s.src = some [] →
        processScript hashFn download force domain dir st s = st) ∧
    (∀ (hashFn : List Nat → String) (download : String → Option (List Nat))
        (force : Bool) (domain dir : String) (idx : List (String × String))
        (scripts : List Script) (m : String),
        (captureScripts hashFn download force domain dir (initCapState idx)
            scripts).parseQueue ≠ [] →
        capturePageAfterConnect hashFn download force domain dir idx scripts
            (ParseChainOutcome.exc m)
          = Except.error (CaptureError.parseChain m) ∧
        (CaptureError.parseChain m).isConnectivity = false) := by
  refine ⟨?_, ?_, ?_, ?_⟩
  · intro hashFn download force domain dir idx scripts pout hnotexc
    simp only [capturePageAfterConnect]
    by_cases hq : (captureScripts hashFn download force domain dir
        (initCapState idx) scripts).parseQueue = []
    · rw [if_pos hq]
      exact ⟨_, rfl⟩
    · rw [if_neg hq]
      cases pout with
      | respSuccess n => exact ⟨_, rfl⟩
      | respError m => exact ⟨_, rfl⟩
      | exc m => exact absurd rfl (hnotexc m)
  · intro hashFn download force domain dir idx scripts msg
    simp only [capturePageAfterConnect]
    by_cases hq : (captureScripts hashFn download force domain dir
        (initCapState idx) scripts).parseQueue = []
    · rw [if_pos hq]
      exact ⟨_, rfl, rfl⟩
    · rw [if_neg hq]
      exact ⟨_, rfl, rfl⟩
  · intro hashFn download force domain dir st s h
    exact processScript_noop hashFn download force domain dir st s
      (Or.inr (Or.inr h))
  · intro hashFn download force domain dir idx scripts m hq
    simp only [capturePageAfterConnect]
    rw [if_neg hq]
    exact ⟨rfl, rfl⟩

/-- Witness for C6 (amended) at concrete inputs: an error-status reply yields
a stats object with zero indexed chunks; a zero-byte download changes
nothing; a raising chain propagates as a non-connectivity error. -/
theorem c6_capture_error_containment_witness :
    (∃ stats, capturePageAfterConnect (fun _ => "H")
        (fun u => if u = "https://a.com/x.js" then some [7] else none) false
        "a.com" "S" [] [{ src := "https://a.com/x.js" }]
        (ParseChainOutcome.respError "parse failed") = Except.ok stats ∧
      stats.chunksIndexed = 0) ∧
    processScript (fun _ => "H") (fun _ => some []) false "a.com" "S"
        (initCapState []) { src := "https://a.com/empty.js" }
      = initCapState [] ∧
    (capturePageAfterConnect (fun _ => "H")
        (fun u => if u = "https://a.com/x.js" then some [7] else none) false
        "a.com" "S" [] [{ src := "https://a.com/x.js" }]
        (ParseChainOutcome.exc "embedding API error")
      = Except.error (CaptureError.parseChain "embedding API error") ∧
      (CaptureError.parseChain "embedding API error").isConnectivity = false) := by
  refine ⟨?_, ?_, ?_⟩
  · exact c6_capture_error_containment.2.1 (fun _ => "H")
      (fun u => if u = "https://a.com/x.js" then some [7] else none) false
      "a.com" "S" [] [{ src := "https://a.com/x.js" }] "parse failed"
  · exact c6_capture_error_containment.2.2.1 (fun _ => "H") (fun _ => some [])
      false "a.com" "S" (initCapState []) { src := "https://a.com/empty.js" } rfl
  · exact c6_capture_error_containment.2.2.2 (fun _ => "H")
      (fun u => if u = "https://a.com/x.js" then some [7] else none) false
      "a.com" "S" [] [{ src := "https://a.com/x.js" }] "embedding API error"
      (by decide)

end BrowserInsight
